import Mathlib

/-!
Verification of the `rl_dqn` core of the FlappyRL repository: a hand-written
feed-forward network with manual backpropagation (`network.cpp`), an Adam
optimizer (`adam.cpp`), a circular experience replay buffer
(`replay_buffer.cpp`) and the orchestrating DQN agent (`dqn_agent.cpp`).

The embedding uses exact rational arithmetic (`ℚ`) in place of C++ `float`;
`std::sqrt` (used only by the Adam parameter step) is abstracted as an
explicit function argument `sq : ℚ → ℚ`.  Indexed vector reads `a[i]` are
translated as `List.getD i 0`; loops become maps over `List.range` bounded by
the same expressions the C++ loops use.  The single read in
`Network::backward` that can be out of bounds for shape-well-formed inputs
(the ReLU-mask read of the previous layer's pre-activation vector,
network.cpp:184) is translated with `List.get?`, so `backward` returns
`none` exactly when that read would be out of bounds.
-/

namespace FlappyRL

abbrev Vec := List ℚ
abbrev Mat := List (List ℚ)

/-- Layer sizes, weight matrices (row-major, `[layer][neuron][weight]`) and
bias vectors, as in class `Network` (network.h). RNG state is not modelled:
no claim involves the random initialisation. -/
structure Network where
  layer_sizes : List ℕ
  weights : List Mat
  biases : List Vec
  deriving Repr, DecidableEq

/-- network.cpp:38 `relu`. -/
def relu (x : ℚ) : ℚ := max 0 x

/-- network.cpp:42 `relu_derivative`: `x > 0.0f ? 1.0f : 0.0f`. -/
def relu_derivative (x : ℚ) : ℚ := if 0 < x then 1 else 0

/-- network.cpp:67 `matvec_mult`: `result[i] += W[i][j] * x[j]` for
`j < x.size()`; the result has `W.size()` entries. -/
def matvec_mult (W : Mat) (x : Vec) : Vec :=
  W.map (fun row => ((List.range x.length).map (fun j => row.getD j 0 * x.getD j 0)).sum)

/-- network.cpp:89-91: `z[i] += biases[layer][i]` for `i < z.size()`. -/
def add_bias (z b : Vec) : Vec :=
  (List.range z.length).map (fun i => z.getD i 0 + b.getD i 0)

/-- One layer of the forward pass (network.cpp:86-103): `z = W·a + b`, with
ReLU applied exactly when the layer is not the last one. -/
def layer_forward (W : Mat) (b : Vec) (applyRelu : Bool) (a : Vec) : Vec :=
  let z := add_bias (matvec_mult W a) b
  if applyRelu then z.map relu else z

/-- The layer loop of `Network::forward`: ReLU on every layer except the
last (network.cpp:94). -/
def forward_layers : List Mat → List Vec → Vec → Vec
  | [], _, a => a
  | W :: Ws, bs, a =>
      forward_layers Ws bs.tail (layer_forward W (bs.headD []) (!Ws.isEmpty) a)

/-- network.cpp:78 `Network::forward`; `none` models the
`InputSizeMismatch` exception thrown when the input length differs from
`layer_sizes_[0]`. -/
def Network.forward (net : Network) (input : Vec) : Option Vec :=
  if input.length = net.layer_sizes.getD 0 0 then
    some (forward_layers net.weights net.biases input)
  else none

/-- The forward recomputation inside `Network::backward`
(network.cpp:126-150): returns the list of post-activations (one per layer,
the input itself excluded) and the list of pre-activations (one per layer). -/
def forward_trace : List Mat → List Vec → Vec → List Vec × List Vec
  | [], _, _ => ([], [])
  | W :: Ws, bs, a =>
      let z := add_bias (matvec_mult W a) (bs.headD [])
      let act := if !Ws.isEmpty then z.map relu else z
      let rest := forward_trace Ws bs.tail act
      (act :: rest.1, z :: rest.2)

/-- Gradients of one layer (network.cpp:164-173): the weight-gradient row
`i` is `delta[i] * prev_activation[j]` over the row's extent, and the bias
gradient vector is zero-initialised at the bias length
(network.cpp:123) and then overwritten with `delta[i]` for
`i < weights_[layer].size()` (network.cpp:165-167). -/
def layer_grads (W : Mat) (b : Vec) (delta prevAct : Vec) : Mat × Vec :=
  ((List.range W.length).map (fun i =>
      (List.range (W.getD i []).length).map (fun j => delta.getD i 0 * prevAct.getD j 0)),
   (List.range b.length).map (fun i => if i < W.length then delta.getD i 0 else 0))

/-- Effectful map over a list in the `Option` monad (structural form of
`List.mapM` at `Option`), used wherever a C++ loop can throw or read out of
bounds partway through. -/
def option_map_list {α β : Type} (f : α → Option β) : List α → Option (List β)
  | [] => some []
  | x :: xs => do
      let y ← f x
      let ys ← option_map_list f xs
      some (y :: ys)

/-- The per-source-unit factors `delta[i] * relu_derivative(prev_pre_activation[i])`
of the error-propagation loop (network.cpp:183-184).  The read
`prev_pre_activation[i]` ranges `i` over the CURRENT layer's row count, so it
is translated with `List.get?`: the result is `none` exactly when the C++
read is out of bounds. -/
def masked_delta (W : Mat) (delta prevPre : Vec) : Option Vec :=
  option_map_list (fun i =>
    (prevPre[i]?).map (fun z => delta.getD i 0 * relu_derivative z))
    (List.range W.length)

/-- The accumulation `prev_delta[j] += W[i][j] * factors[i]`
(network.cpp:185-187), where `prev_delta` has `prevLen` entries
(network.cpp:177). -/
def back_delta (W : Mat) (factors : Vec) (prevLen : ℕ) : Vec :=
  (List.range prevLen).map (fun j =>
    ((List.range W.length).map (fun i => (W.getD i []).getD j 0 * factors.getD i 0)).sum)

/-- Explicit transpose of a row-major matrix with the given extents, used
only by the spec-side formulations ("multiply the transposed weight
matrix by delta"). -/
def mat_transpose (W : Mat) (rows cols : ℕ) : Mat :=
  (List.range cols).map (fun j => (List.range rows).map (fun i => (W.getD i []).getD j 0))

/-- The backward layer loop (network.cpp:161-191), processing layers
`layer, layer-1, ..., 0` and producing per-layer weight and bias gradients in
layer order.  `numLayers` is `weights_.size()`; propagation from layer
`l+1` applies the ReLU-derivative factors when `l+1 < numLayers - 1` and the
constant factor `1.0` when propagating from the final layer
(network.cpp:183-184, where the conditional operator never evaluates the
masked read in the final-layer case). -/
def backward_layers (weights : List Mat) (biases : List Vec)
    (acts pres : List Vec) (numLayers : ℕ) : ℕ → Vec → Option (List Mat × List Vec)
  | 0, delta =>
      some ([(layer_grads (weights.getD 0 []) (biases.getD 0 []) delta (acts.getD 0 [])).1],
            [(layer_grads (weights.getD 0 []) (biases.getD 0 []) delta (acts.getD 0 [])).2])
  | l + 1, delta => do
      let W := weights.getD (l + 1) []
      let g := layer_grads W (biases.getD (l + 1) []) delta (acts.getD (l + 1) [])
      let factors ← if l + 1 < numLayers - 1 then
          masked_delta W delta (pres.getD l [])
        else
          some ((List.range W.length).map (fun i => delta.getD i 0 * 1))
      let prevDelta := back_delta W factors (acts.getD (l + 1) []).length
      let rest ← backward_layers weights biases acts pres numLayers l prevDelta
      some (rest.1 ++ [g.1], rest.2 ++ [g.2])

/-- network.cpp:108 `Network::backward`: recomputes the forward trace,
forms the output error `predicted - target` (network.cpp:153-156) and runs
the backward layer loop.  The result is `none` exactly when the loop would
read `prev_pre_activation` out of bounds (see `masked_delta`). -/
def Network.backward (net : Network) (input target predicted : Vec) :
    Option (List Mat × List Vec) :=
  let tr := forward_trace net.weights net.biases input
  let acts := input :: tr.1
  let err := (List.range predicted.length).map
    (fun i => predicted.getD i 0 - target.getD i 0)
  match net.weights.length with
  | 0 => some ([], [])
  | n + 1 => backward_layers net.weights net.biases acts tr.2 (n + 1) n err

/-- Backward layer loop following the SPEC's words (§4.1, claim C1): "multiply
the transposed weight matrix by `delta` and then apply a ReLU-derivative
mask" — the mask is applied to the product, so it is indexed by the RECEIVING
unit `j` and reads the previous layer's pre-activation at `j`; it is forced
to 1 when propagating from the final layer. -/
def backward_layers_specmask (weights : List Mat) (biases : List Vec)
    (acts pres : List Vec) (numLayers : ℕ) : ℕ → Vec → List Mat × List Vec
  | 0, delta =>
      ([(layer_grads (weights.getD 0 []) (biases.getD 0 []) delta (acts.getD 0 [])).1],
       [(layer_grads (weights.getD 0 []) (biases.getD 0 []) delta (acts.getD 0 [])).2])
  | l + 1, delta =>
      let W := weights.getD (l + 1) []
      let g := layer_grads W (biases.getD (l + 1) []) delta (acts.getD (l + 1) [])
      let prevLen := (acts.getD (l + 1) []).length
      let raw := matvec_mult (mat_transpose W W.length prevLen) delta
      let prevDelta := if l + 1 < numLayers - 1 then
          (List.range prevLen).map
            (fun j => raw.getD j 0 * relu_derivative ((pres.getD l []).getD j 0))
        else raw
      let rest := backward_layers_specmask weights biases acts pres numLayers l prevDelta
      (rest.1 ++ [g.1], rest.2 ++ [g.2])

/-- Backpropagation exactly as the spec's §4.1 words describe it (mask applied
to the transposed-matrix product, indexed by the receiving unit); compared
against `Network.backward`, the embedding of the source, for claim C1. -/
def Network.backward_specmask (net : Network) (input target predicted : Vec) :
    List Mat × List Vec :=
  let tr := forward_trace net.weights net.biases input
  let acts := input :: tr.1
  let err := (List.range predicted.length).map
    (fun i => predicted.getD i 0 - target.getD i 0)
  match net.weights.length with
  | 0 => ([], [])
  | n + 1 => backward_layers_specmask net.weights net.biases acts tr.2 (n + 1) n err

/-- Backward layer loop following the AMENDED claim C1: the ReLU-derivative
factor is indexed by the SOURCE unit `i` of the current layer (reading the
previous layer's pre-activation at that source index) and multiplies
`delta[i]` before the transposed weight matrix is applied; the factor is 1
when propagating from the final layer. -/
def backward_layers_amended (weights : List Mat) (biases : List Vec)
    (acts pres : List Vec) (numLayers : ℕ) : ℕ → Vec → List Mat × List Vec
  | 0, delta =>
      ([(layer_grads (weights.getD 0 []) (biases.getD 0 []) delta (acts.getD 0 [])).1],
       [(layer_grads (weights.getD 0 []) (biases.getD 0 []) delta (acts.getD 0 [])).2])
  | l + 1, delta =>
      let W := weights.getD (l + 1) []
      let g := layer_grads W (biases.getD (l + 1) []) delta (acts.getD (l + 1) [])
      let prevLen := (acts.getD (l + 1) []).length
      let factors := (List.range W.length).map (fun i =>
        delta.getD i 0 * (if l + 1 < numLayers - 1 then
          relu_derivative ((pres.getD l []).getD i 0) else 1))
      let prevDelta := matvec_mult (mat_transpose W W.length prevLen) factors
      let rest := backward_layers_amended weights biases acts pres numLayers l prevDelta
      (rest.1 ++ [g.1], rest.2 ++ [g.2])

/-- Backpropagation as the amended claim C1 describes it. -/
def Network.backward_amended (net : Network) (input target predicted : Vec) :
    List Mat × List Vec :=
  let tr := forward_trace net.weights net.biases input
  let acts := input :: tr.1
  let err := (List.range predicted.length).map
    (fun i => predicted.getD i 0 - target.getD i 0)
  match net.weights.length with
  | 0 => ([], [])
  | n + 1 => backward_layers_amended net.weights net.biases acts tr.2 (n + 1) n err

/-- A concrete 1-2-2-1 network.  The first hidden layer's pre-activations on
input `[1]` are `[1, -1]` (mixed signs), which separates the source-indexed
mask of the code from the receiving-indexed mask of the spec's words. -/
def netC1 : Network :=
  { layer_sizes := [1, 2, 2, 1],
    weights := [[[1], [-1]], [[1, 1], [1, 1]], [[1, 1]]],
    biases := [[0, 0], [0, 0], [0]] }

/-- A concrete 1-1-2 network: its only non-first weight layer is the final
layer, with fan_out 2 > fan_in 1. -/
def netC9a : Network :=
  { layer_sizes := [1, 1, 2],
    weights := [[[1]], [[1], [1]]],
    biases := [[0], [0, 0]] }

/-- A concrete network with the architecture {4, 2, 8, 2} named by claim C9
(all-zero parameters; the mask read is independent of parameter values). -/
def netC9b : Network :=
  { layer_sizes := [4, 2, 8, 2],
    weights := [List.replicate 2 (List.replicate 4 0),
                List.replicate 8 (List.replicate 2 0),
                List.replicate 2 (List.replicate 8 0)],
    biases := [List.replicate 2 0, List.replicate 8 0, List.replicate 2 0] }

/-! ## Replay buffer (replay_buffer.cpp)

The C++ buffer stores `Experience` values; the embedding is parametric in the
element type (the structure and all operations are element-agnostic).  The
`std::mt19937` member only feeds `std::shuffle` inside `sample`; the shuffle
result is externalised as the `shuffled` argument of `sample`. -/

structure ReplayBuffer (α : Type) where
  experiences : List α
  capacity : ℕ
  write_index : ℕ
  deriving Repr, DecidableEq

/-- replay_buffer.cpp:8: fresh buffer (empty storage, write cursor 0). -/
def ReplayBuffer.create (α : Type) (capacity : ℕ) : ReplayBuffer α :=
  { experiences := [], capacity := capacity, write_index := 0 }

/-- replay_buffer.cpp:13 `push`: append while below capacity, otherwise
overwrite the slot at the write cursor and advance it modulo capacity. -/
def ReplayBuffer.push {α : Type} (b : ReplayBuffer α) (e : α) : ReplayBuffer α :=
  if b.experiences.length < b.capacity then
    { b with experiences := b.experiences ++ [e] }
  else
    { b with experiences := b.experiences.set b.write_index e,
             write_index := (b.write_index + 1) % b.capacity }

/-- Pushing a whole list in order (used to state the claims about repeated
pushes). -/
def ReplayBuffer.push_all {α : Type} (b : ReplayBuffer α) (xs : List α) : ReplayBuffer α :=
  xs.foldl ReplayBuffer.push b

/-- The `std::runtime_error` thrown by `sample` (replay_buffer.cpp:25). -/
inductive SampleError where
  | insufficientSamples
  deriving Repr, DecidableEq

/-- replay_buffer.cpp:23 `sample`: fails when fewer experiences than
requested are stored; otherwise takes the first `batch_size` entries of the
shuffled index permutation (`shuffled` stands for the result of
`std::shuffle` on `iota(0, size)`, replay_buffer.cpp:32-35) and reads the
experiences at those slots.  The buffer itself is not mutated (the method is
`const` up to its internal generator), which the embedding reflects by not
returning a buffer. -/
def ReplayBuffer.sample {α : Type} [Inhabited α] (b : ReplayBuffer α)
    (batch_size : ℕ) (shuffled : List ℕ) : Except SampleError (List α) :=
  if b.experiences.length < batch_size then
    .error .insufficientSamples
  else
    .ok ((shuffled.take batch_size).map (fun idx => b.experiences.getD idx default))

/-- replay_buffer.cpp:44 `can_sample`: `size() >= batch_size`. -/
def ReplayBuffer.can_sample {α : Type} (b : ReplayBuffer α) (batch_size : ℕ) : Bool :=
  decide (batch_size ≤ b.experiences.length)

/-- replay_buffer.cpp:48 `clear`: only `experiences_.clear()`; the write
cursor is left untouched. -/
def ReplayBuffer.clear {α : Type} (b : ReplayBuffer α) : ReplayBuffer α :=
  { b with experiences := [] }

/-- replay_buffer.h:36 `size`. -/
def ReplayBuffer.size {α : Type} (b : ReplayBuffer α) : ℕ :=
  b.experiences.length

/-! ## Adam optimizer (adam.cpp)

`std::sqrt` is abstracted as the explicit argument `sq`.  The C++ update
loops mutate the moment tensors and the caller's parameter tensors in place,
indexing every tensor by the extents of the `weights` argument
(adam.cpp:47-59); the embedding models one such loop as `overwrite_upto`:
entries with index below the loop bound are rewritten, entries beyond it are
left unchanged, and writes past the end of the list (out of bounds in C++)
are dropped. -/

/-- Rewrite the entries of `xs` at positions `start, start+1, ...` that lie
below `n`, leaving the rest unchanged. -/
def overwrite_from {α : Type} (f : ℕ → α → α) (n : ℕ) : ℕ → List α → List α
  | _, [] => []
  | i, x :: xs => (if i < n then f i x else x) :: overwrite_from f n (i + 1) xs

/-- Models the in-place loop `for (i = 0; i < n; ++i) xs[i] = f(i, xs[i])`. -/
def overwrite_upto {α : Type} (f : ℕ → α → α) (n : ℕ) (xs : List α) : List α :=
  overwrite_from f n 0 xs

structure AdamOptimizer where
  learning_rate : ℚ
  beta1 : ℚ
  beta2 : ℚ
  epsilon : ℚ
  step : ℕ
  m_weights : List Mat
  v_weights : List Mat
  m_biases : List Vec
  v_biases : List Vec
  deriving Repr, DecidableEq

/-- adam.cpp:6: constructor (step 0, no moment state). -/
def AdamOptimizer.create (learning_rate beta1 beta2 epsilon : ℚ) : AdamOptimizer :=
  { learning_rate := learning_rate, beta1 := beta1, beta2 := beta2,
    epsilon := epsilon, step := 0,
    m_weights := [], v_weights := [], m_biases := [], v_biases := [] }

/-- adam.cpp:10 `initialize_state` (renamed: Lean identifier restrictions):
moment tensors shaped like the supplied parameters.  The C++ `resize(_, 0.0f)`
zero-fills because the member vectors are empty at every call site
(construction and `reset` both leave them empty). -/
def AdamOptimizer.init_state (o : AdamOptimizer) (weights : List Mat) (biases : List Vec) :
    AdamOptimizer :=
  { o with
    m_weights := weights.map (fun M => M.map (fun r => r.map (fun _ => 0))),
    v_weights := weights.map (fun M => M.map (fun r => r.map (fun _ => 0))),
    m_biases := biases.map (fun v => v.map (fun _ => 0)),
    v_biases := biases.map (fun v => v.map (fun _ => 0)) }

/-- adam.cpp:77 `reset`: zero the step counter and drop all moment state. -/
def AdamOptimizer.reset (o : AdamOptimizer) : AdamOptimizer :=
  { o with step := 0, m_weights := [], v_weights := [], m_biases := [], v_biases := [] }

/-- adam.cpp:30 `update`.  Returns the optimizer's new state together with
the updated weight and bias tensors (the C++ mutates the caller's tensors in
place).  All loop bounds come from the `weights` argument, as in the source;
the new moment values are computed from the old ones and the parameter step
uses the NEW moments at the same index (adam.cpp:50-71), which the
compute-all-then-apply form below reproduces because no entry depends on any
other entry. -/
def AdamOptimizer.update (sq : ℚ → ℚ) (o : AdamOptimizer)
    (weights : List Mat) (biases : List Vec)
    (weight_gradients : List Mat) (bias_gradients : List Vec) :
    AdamOptimizer × List Mat × List Vec :=
  let o1 := if o.step = 0 then o.init_state weights biases else o
  let t := o1.step + 1
  let bc1 := 1 - o1.beta1 ^ t
  let bc2 := 1 - o1.beta2 ^ t
  let m_b := overwrite_upto (fun layer mb =>
      overwrite_upto (fun i m =>
          o1.beta1 * m + (1 - o1.beta1) * (bias_gradients.getD layer []).getD i 0)
        (weights.getD layer []).length mb)
    weights.length o1.m_biases
  let v_b := overwrite_upto (fun layer vb =>
      overwrite_upto (fun i v =>
          o1.beta2 * v + (1 - o1.beta2) * (bias_gradients.getD layer []).getD i 0
            * (bias_gradients.getD layer []).getD i 0)
        (weights.getD layer []).length vb)
    weights.length o1.v_biases
  let biases1 := overwrite_upto (fun layer bv =>
      overwrite_upto (fun i p =>
          p - o1.learning_rate * ((m_b.getD layer []).getD i 0 / bc1)
            / (sq ((v_b.getD layer []).getD i 0 / bc2) + o1.epsilon))
        (weights.getD layer []).length bv)
    weights.length biases
  let m_w := overwrite_upto (fun layer mM =>
      overwrite_upto (fun i mr =>
          overwrite_upto (fun j m =>
              o1.beta1 * m + (1 - o1.beta1) * ((weight_gradients.getD layer []).getD i []).getD j 0)
            ((weights.getD layer []).getD i []).length mr)
        (weights.getD layer []).length mM)
    weights.length o1.m_weights
  let v_w := overwrite_upto (fun layer vM =>
      overwrite_upto (fun i vr =>
          overwrite_upto (fun j v =>
              o1.beta2 * v + (1 - o1.beta2) * ((weight_gradients.getD layer []).getD i []).getD j 0
                * ((weight_gradients.getD layer []).getD i []).getD j 0)
            ((weights.getD layer []).getD i []).length vr)
        (weights.getD layer []).length vM)
    weights.length o1.v_weights
  let weights1 := overwrite_upto (fun layer wM =>
      overwrite_upto (fun i wr =>
          overwrite_upto (fun j p =>
              p - o1.learning_rate * (((m_w.getD layer []).getD i []).getD j 0 / bc1)
                / (sq (((v_w.getD layer []).getD i []).getD j 0 / bc2) + o1.epsilon))
            ((weights.getD layer []).getD i []).length wr)
        (weights.getD layer []).length wM)
    weights.length weights
  ({ o1 with step := t, m_weights := m_w, v_weights := v_w,
             m_biases := m_b, v_biases := v_b },
   weights1, biases1)

/-! ## Network accessors (network.cpp:210-249) -/

/-- The nested-length shape of a weight tensor (layer count, per-layer row
count, per-row column count), the data compared by the `ShapeMismatch`
checks of network.cpp:219-232. -/
def w3_shape (w : List Mat) : List (List ℕ) :=
  w.map (fun M => M.map List.length)

/-- The nested-length shape of a bias tensor (network.cpp:242-246). -/
def b2_shape (b : List Vec) : List ℕ :=
  b.map List.length

/-- network.cpp:210 `get_weights`. -/
def Network.get_weights (net : Network) : List Mat := net.weights

/-- network.cpp:214 `get_biases`. -/
def Network.get_biases (net : Network) : List Vec := net.biases

/-- network.cpp:218 `set_weights`; `none` models the `ShapeMismatch`
exception: the layer count, per-layer row count and per-row column count of
the supplied tensor must all equal the network's own (network.cpp:219-232). -/
def Network.set_weights (net : Network) (w : List Mat) : Option Network :=
  if w3_shape w = w3_shape net.weights then
    some { net with weights := w }
  else none

/-- network.cpp:237 `set_biases`; same shape validation for bias vectors. -/
def Network.set_biases (net : Network) (b : List Vec) : Option Network :=
  if b2_shape b = b2_shape net.biases then
    some { net with biases := b }
  else none

/-- Shape well-formedness of a network, as established by the constructor
(network.cpp:9-36): at least two layer sizes, one weight matrix and one bias
vector per consecutive pair, each matrix `fan_out x fan_in`, each bias of
length `fan_out`. -/
def Network.wf (net : Network) : Prop :=
  2 ≤ net.layer_sizes.length ∧
  net.weights.length = net.layer_sizes.length - 1 ∧
  net.biases.length = net.layer_sizes.length - 1 ∧
  ∀ l < net.weights.length,
    (net.weights.getD l []).length = net.layer_sizes.getD (l + 1) 0 ∧
    (∀ r ∈ net.weights.getD l [], r.length = net.layer_sizes.getD l 0) ∧
    (net.biases.getD l []).length = net.layer_sizes.getD (l + 1) 0

instance (net : Network) : Decidable net.wf := by
  unfold Network.wf; infer_instance

/-! ## Observation, action, experience (env_flappy.h:11-21, replay_buffer.h:13-19) -/

inductive Action where
  | FLAP
  | NO_FLAP
  deriving Repr, DecidableEq, Inhabited

structure Observation where
  y : ℚ
  vy : ℚ
  dx_to_pipe : ℚ
  dy_to_gap : ℚ
  deriving Repr, DecidableEq, Inhabited

structure Experience where
  state : Observation
  action : Action
  reward : ℚ
  next_state : Observation
  done : Bool
  deriving Repr, DecidableEq, Inhabited

/-! ## DQN agent (dqn_agent.h, dqn_agent.cpp) -/

/-- dqn_agent.h:14 `DQNConfig`.  `train_frequency`, `target_update_frequency`
and `seed` are omitted: they are consumed by the orchestrating loop and the
constructors, not by any agent method modelled here. -/
structure DQNConfig where
  layer_sizes : List ℕ
  learning_rate : ℚ
  gamma : ℚ
  epsilon_start : ℚ
  epsilon_end : ℚ
  epsilon_decay_steps : ℤ
  replay_buffer_size : ℕ
  batch_size : ℕ
  adam_beta1 : ℚ
  adam_beta2 : ℚ
  adam_epsilon : ℚ
  deriving Repr, DecidableEq

structure DQNAgent where
  config : DQNConfig
  main_network : Network
  target_network : Network
  replay_buffer : ReplayBuffer Experience
  optimizer : AdamOptimizer
  total_steps : ℕ
  training_steps : ℕ
  current_epsilon : ℚ
  deriving Repr, DecidableEq

/-- dqn_agent.cpp:25 `observation_to_input`. -/
def observation_to_input (obs : Observation) : Vec :=
  [obs.y, obs.vy, obs.dx_to_pipe, obs.dy_to_gap]

/-- The epsilon value dqn_agent.cpp:33-34 assigns when the total-step counter
has value `n`: `epsilon_start + (epsilon_end - epsilon_start) * min(1, n / epsilon_decay_steps)`. -/
def epsilon_at (cfg : DQNConfig) (n : ℕ) : ℚ :=
  cfg.epsilon_start + (cfg.epsilon_end - cfg.epsilon_start)
    * min 1 ((n : ℚ) / (cfg.epsilon_decay_steps : ℚ))

/-- dqn_agent.cpp:29 `select_action`.  `u1` and `u2` stand for the two
`dist(rng)` draws from the generator freshly seeded with the incremented
step counter (dqn_agent.cpp:37-42); the seeding itself is not modelled.
`none` models the `InputSizeMismatch` exception escaping from the greedy
branch's forward pass; the counter and epsilon mutations happen first
(dqn_agent.cpp:30-34). -/
def DQNAgent.select_action (agent : DQNAgent) (state : Observation) (u1 u2 : ℚ) :
    Option (Action × DQNAgent) :=
  let total := agent.total_steps + 1
  let eps := epsilon_at agent.config total
  let agent1 := { agent with total_steps := total, current_epsilon := eps }
  if u1 < eps then
    some (if u2 < 1 / 2 then Action.NO_FLAP else Action.FLAP, agent1)
  else
    (agent1.main_network.forward (observation_to_input state)).map
      (fun q => (if q.getD 0 0 < q.getD 1 0 then Action.FLAP else Action.NO_FLAP, agent1))

/-- dqn_agent.cpp:57 `store_experience`. -/
def DQNAgent.store_experience (agent : DQNAgent) (state : Observation) (action : Action)
    (reward : ℚ) (next_state : Observation) (done : Bool) : DQNAgent :=
  let exp : Experience :=
    { state := state, action := action, reward := reward,
      next_state := next_state, done := done }
  { agent with replay_buffer := agent.replay_buffer.push exp }

/-- dqn_agent.cpp:93 `action_idx`: FLAP is slot 1, NO_FLAP slot 0. -/
def action_index (a : Action) : ℕ :=
  if a = Action.FLAP then 1 else 0

/-- dqn_agent.cpp:72 `compute_targets`: per experience, a 2-vector that is
zero except at the taken action's slot, which holds `reward` for terminal
transitions and `reward + gamma * max(target_network.forward(next_state))`
otherwise. -/
def DQNAgent.compute_targets (agent : DQNAgent) (batch : List Experience) : Option (List Vec) :=
  option_map_list (fun exp =>
    if exp.done then
      some (([0, 0] : Vec).set (action_index exp.action) exp.reward)
    else
      (agent.target_network.forward (observation_to_input exp.next_state)).map
        (fun next_q => ([0, 0] : Vec).set (action_index exp.action)
          (exp.reward + agent.config.gamma * max (next_q.getD 0 0) (next_q.getD 1 0))))
    batch

/-- The zero-filled gradient accumulator of dqn_agent.cpp:119-132, shaped
from the network's layer sizes. -/
def zero_weight_acc (sizes : List ℕ) : List Mat :=
  (List.range (sizes.length - 1)).map (fun i =>
    List.replicate (sizes.getD (i + 1) 0) (List.replicate (sizes.getD i 0) 0))

/-- Bias part of the accumulator of dqn_agent.cpp:119-132. -/
def zero_bias_acc (sizes : List ℕ) : List Vec :=
  (List.range (sizes.length - 1)).map (fun i => List.replicate (sizes.getD (i + 1) 0) 0)

/-- The gradient accumulation loop dqn_agent.cpp:162-170 at vector level:
`acc[i] += g[i]` for every `i` below `g`'s length. -/
def acc_vec (acc g : Vec) : Vec :=
  overwrite_upto (fun i a => a + g.getD i 0) g.length acc

/-- Accumulation at matrix level (dqn_agent.cpp:163-168). -/
def acc_mat (acc g : Mat) : Mat :=
  overwrite_upto (fun i row => acc_vec row (g.getD i [])) g.length acc

/-- Accumulation over the per-layer weight-gradient tensors (dqn_agent.cpp:162). -/
def acc_w3 (acc g : List Mat) : List Mat :=
  overwrite_upto (fun l M => acc_mat M (g.getD l [])) g.length acc

/-- Accumulation over the per-layer bias-gradient tensors (dqn_agent.cpp:164). -/
def acc_b2 (acc g : List Vec) : List Vec :=
  overwrite_upto (fun l v => acc_vec v (g.getD l [])) g.length acc

/-- dqn_agent.cpp:103 `train`.  `sq` abstracts `std::sqrt` inside the Adam
update and `shuffled` the `std::shuffle` permutation inside `sample`.  Below
the batch threshold the result is `some (0, agent)` — the silent skip of
dqn_agent.cpp:104-106.  Otherwise `none` models an exception or an
out-of-bounds read escaping from `forward`/`backward`/`set_weights`. -/
def DQNAgent.train (sq : ℚ → ℚ) (agent : DQNAgent) (shuffled : List ℕ) :
    Option (ℚ × DQNAgent) :=
  if agent.replay_buffer.can_sample agent.config.batch_size then do
    let batch ← (agent.replay_buffer.sample agent.config.batch_size shuffled).toOption
    let targets ← agent.compute_targets batch
    let results ← option_map_list (fun (p : Experience × Vec) => do
      let exp := p.1
      let input := observation_to_input exp.state
      let predicted ← agent.main_network.forward input
      let aidx := action_index exp.action
      let other := 1 - aidx
      let tgt := p.2.set other (predicted.getD other 0)
      let d := predicted.getD aidx 0 - tgt.getD aidx 0
      let g ← agent.main_network.backward input tgt predicted
      some (d * d, g)) (batch.zip targets)
    let total_loss := (results.map (fun r => r.1)).sum
    let total_wg := results.foldl (fun acc r => acc_w3 acc r.2.1)
      (zero_weight_acc agent.main_network.layer_sizes)
    let total_bg := results.foldl (fun acc r => acc_b2 acc r.2.2)
      (zero_bias_acc agent.main_network.layer_sizes)
    let upd := agent.optimizer.update sq agent.main_network.get_weights
      agent.main_network.get_biases total_wg total_bg
    let main1 ← agent.main_network.set_weights upd.2.1
    let main2 ← main1.set_biases upd.2.2
    some (total_loss / (batch.length : ℚ),
      { agent with main_network := main2, optimizer := upd.1,
                   training_steps := agent.training_steps + 1 })
  else
    some (0, agent)

/-- dqn_agent.cpp:190 `update_target_network`: copies the main network's
weight tensors into the target network via `get_weights`/`set_weights`;
biases are not touched. -/
def DQNAgent.update_target_network (agent : DQNAgent) : Option DQNAgent :=
  (agent.target_network.set_weights agent.main_network.get_weights).map
    (fun tn => { agent with target_network := tn })

/-- dqn_agent.cpp:195 `get_epsilon`. -/
def DQNAgent.get_epsilon (agent : DQNAgent) : ℚ :=
  agent.current_epsilon

/-- dqn_agent.h:74 `get_training_steps`. -/
def DQNAgent.get_training_steps (agent : DQNAgent) : ℕ :=
  agent.training_steps

/-- dqn_agent.h:75 `get_total_steps`. -/
def DQNAgent.get_total_steps (agent : DQNAgent) : ℕ :=
  agent.total_steps

/-! ## Specification-side per-sample quantities (claim C2)

These re-express, per sampled experience, the values the train loop of
dqn_agent.cpp:134-171 computes, as standalone total functions (junk defaults
stand in where `train` would have propagated an exception). -/

/-- The main network's current Q-prediction for an experience's state
(dqn_agent.cpp:141-142). -/
def q_pred (agent : DQNAgent) (exp : Experience) : Vec :=
  (agent.main_network.forward (observation_to_input exp.state)).getD []

/-- The TD target for the taken action (dqn_agent.cpp:80-90): the reward for
terminal transitions, else `reward + gamma * max(target_network.forward(next_state))`. -/
def td_target (agent : DQNAgent) (exp : Experience) : ℚ :=
  if exp.done then exp.reward
  else exp.reward + agent.config.gamma *
    max (((agent.target_network.forward (observation_to_input exp.next_state)).getD []).getD 0 0)
        (((agent.target_network.forward (observation_to_input exp.next_state)).getD []).getD 1 0)

/-- The squared TD error of the taken-action slot (dqn_agent.cpp:150-152). -/
def sq_td (agent : DQNAgent) (exp : Experience) : ℚ :=
  ((q_pred agent exp).getD (action_index exp.action) 0 - td_target agent exp) *
  ((q_pred agent exp).getD (action_index exp.action) 0 - td_target agent exp)

/-- The target vector handed to `backward` for one sample: the taken slot
holds the TD target (dqn_agent.cpp:92-94) and the other slot the current
prediction (dqn_agent.cpp:144-147), so the untaken head contributes zero
gradient. -/
def sample_target_vec (agent : DQNAgent) (exp : Experience) : Vec :=
  (([0, 0] : Vec).set (action_index exp.action) (td_target agent exp)).set
    (1 - action_index exp.action) ((q_pred agent exp).getD (1 - action_index exp.action) 0)

/-- The gradients `backward` produces for one sample on the MAIN network
(dqn_agent.cpp:156-159). -/
def sample_grads (agent : DQNAgent) (exp : Experience) : List Mat × List Vec :=
  (agent.main_network.backward (observation_to_input exp.state)
    (sample_target_vec agent exp) (q_pred agent exp)).getD ([], [])

/-- The batch `sample` returns for a given shuffle permutation
(replay_buffer.cpp:37-39). -/
def sampled_batch (agent : DQNAgent) (shuffled : List ℕ) : List Experience :=
  (shuffled.take agent.config.batch_size).map
    (fun i => agent.replay_buffer.experiences.getD i default)

/-- The elementwise SUM (not average) of the per-sample weight gradients
accumulated by dqn_agent.cpp:162-170 on the zero accumulator of
dqn_agent.cpp:119-132. -/
def summed_weight_grads (agent : DQNAgent) (batch : List Experience) : List Mat :=
  batch.foldl (fun acc e => acc_w3 acc (sample_grads agent e).1)
    (zero_weight_acc agent.main_network.layer_sizes)

/-- The elementwise sum of the per-sample bias gradients. -/
def summed_bias_grads (agent : DQNAgent) (batch : List Experience) : List Vec :=
  batch.foldl (fun acc e => acc_b2 acc (sample_grads agent e).2)
    (zero_bias_acc agent.main_network.layer_sizes)

/-! ## Concrete instances used by witnesses -/

/-- A single-layer 4-to-2 network with simple integer weights. -/
def netW : Network :=
  { layer_sizes := [4, 2],
    weights := [[[1, 0, 0, 0], [0, 1, 0, 0]]],
    biases := [[0, 0]] }

/-- A small agent configuration (batch size 1, epsilon decaying from 1 to 0
over 2 steps). -/
def cfgW : DQNConfig :=
  { layer_sizes := [4, 2], learning_rate := 1, gamma := 1,
    epsilon_start := 1, epsilon_end := 0, epsilon_decay_steps := 2,
    replay_buffer_size := 4, batch_size := 1,
    adam_beta1 := 0, adam_beta2 := 0, adam_epsilon := 1 }

/-- A terminal transition with reward 1. -/
def expW : Experience :=
  { state := { y := 1, vy := 0, dx_to_pipe := 0, dy_to_gap := 0 },
    action := Action.NO_FLAP, reward := 1,
    next_state := { y := 0, vy := 0, dx_to_pipe := 0, dy_to_gap := 0 },
    done := true }

/-- Agent with one stored experience (enough for `cfgW`'s batch size 1). -/
def agentW : DQNAgent :=
  { config := cfgW, main_network := netW, target_network := netW,
    replay_buffer := { experiences := [expW], capacity := 4, write_index := 0 },
    optimizer := AdamOptimizer.create 1 0 0 1,
    total_steps := 0, training_steps := 0, current_epsilon := 1 }

/-- Agent with an empty replay buffer (below the batch threshold). -/
def agentE : DQNAgent :=
  { config := cfgW, main_network := netW, target_network := netW,
    replay_buffer := ReplayBuffer.create Experience 4,
    optimizer := AdamOptimizer.create 1 0 0 1,
    total_steps := 0, training_steps := 0, current_epsilon := 1 }

/-! ## General helper lemmas -/

theorem getD_range_map {α : Type} (f : ℕ → α) (n i : ℕ) (d : α) (h : i < n) :
    ((List.range n).map f).getD i d = f i := by
  rw [List.getD_eq_getElem?_getD, List.getElem?_map, List.getElem?_range h]
  rfl

theorem option_map_list_eq_map {α β : Type} (l : List α) (f : α → Option β) (g : α → β)
    (h : ∀ a ∈ l, f a = some (g a)) : option_map_list f l = some (l.map g) := by
  induction l with
  | nil => rfl
  | cons x xs ih =>
      rw [option_map_list, h x (by simp), ih (fun a ha => h a (by simp [ha]))]
      rfl

theorem option_map_list_isSome {α β : Type} (l : List α) (f : α → Option β) :
    (option_map_list f l).isSome ↔ ∀ a ∈ l, (f a).isSome := by
  induction l with
  | nil => simp [option_map_list]
  | cons x xs ih =>
      rw [option_map_list]
      cases hx : f x with
      | none => simp [hx]
      | some y =>
          cases hxs : option_map_list f xs with
          | none => simp [hx, hxs, ← ih]
          | some ys => simp [hx, hxs, ← ih]

theorem length_matvec_mult (W : Mat) (x : Vec) : (matvec_mult W x).length = W.length := by
  simp [matvec_mult]

theorem length_add_bias (z b : Vec) : (add_bias z b).length = z.length := by
  simp [add_bias]

theorem forward_trace_pre_length (Ws : List Mat) :
    ∀ (bs : List Vec) (a : Vec) (m : ℕ), m < Ws.length →
      ((forward_trace Ws bs a).2.getD m []).length = (Ws.getD m []).length := by
  induction Ws with
  | nil => intro bs a m hm; simp at hm
  | cons W Ws ih =>
      intro bs a m hm
      cases m with
      | zero => simp [forward_trace, length_add_bias, length_matvec_mult]
      | succ m =>
          simp only [forward_trace, List.getD_cons_succ]
          exact ih _ _ m (by simpa using hm)

/-! ## Lemmas about the backward pass -/

theorem masked_delta_eq (W : Mat) (delta prevPre : Vec) (h : W.length ≤ prevPre.length) :
    masked_delta W delta prevPre =
      some ((List.range W.length).map
        (fun i => delta.getD i 0 * relu_derivative (prevPre.getD i 0))) := by
  apply option_map_list_eq_map
  intro i hi
  rw [List.mem_range] at hi
  have hlt : i < prevPre.length := lt_of_lt_of_le hi h
  rw [List.getElem?_eq_getElem hlt, Option.map_some', List.getD_eq_getElem _ _ hlt]

theorem masked_delta_isSome (W : Mat) (delta prevPre : Vec) :
    (masked_delta W delta prevPre).isSome ↔ W.length ≤ prevPre.length := by
  rw [masked_delta, option_map_list_isSome]
  constructor
  · intro h
    by_contra hlt
    push_neg at hlt
    have := h prevPre.length (by simpa using hlt)
    rw [List.getElem?_eq_none (le_refl _)] at this
    simp at this
  · intro h i hi
    rw [List.mem_range] at hi
    rw [List.getElem?_eq_getElem (lt_of_lt_of_le hi h)]
    simp

theorem back_delta_eq_transpose (W : Mat) (factors : Vec) (prevLen : ℕ)
    (h : factors.length = W.length) :
    back_delta W factors prevLen = matvec_mult (mat_transpose W W.length prevLen) factors := by
  unfold back_delta matvec_mult mat_transpose
  rw [List.map_map]
  apply List.map_congr_left
  intro j hj
  simp only [Function.comp]
  rw [h]
  apply congrArg List.sum
  apply List.map_congr_left
  intro i hi
  rw [List.mem_range] at hi
  rw [getD_range_map _ _ _ _ hi]

theorem backward_layers_isSome (weights : List Mat) (biases : List Vec)
    (acts pres : List Vec) (N : ℕ) :
    ∀ (l : ℕ) (delta : Vec),
      (backward_layers weights biases acts pres N l delta).isSome ↔
        (∀ m, 1 ≤ m → m ≤ l → m < N - 1 →
          (weights.getD m []).length ≤ (pres.getD (m - 1) []).length) := by
  intro l
  induction l with
  | zero =>
      intro delta
      simp only [backward_layers, Option.isSome_some, true_iff]
      intro m h1 h2
      omega
  | succ l ih =>
      intro delta
      rw [backward_layers]
      by_cases hc : l + 1 < N - 1
      · rw [if_pos hc]
        cases hmd : masked_delta (weights.getD (l + 1) []) delta (pres.getD l []) with
        | none =>
            have hlen : ¬ (weights.getD (l + 1) []).length ≤ (pres.getD l []).length := by
              intro hle
              rw [masked_delta_eq _ _ _ hle] at hmd
              exact Option.noConfusion hmd
            simp only [Option.bind_eq_bind, Option.none_bind, Option.isSome_none,
              Bool.false_eq_true, false_iff]
            intro hall
            exact hlen (by simpa using hall (l + 1) (by omega) (le_refl _) hc)
        | some factors =>
            simp only [Option.bind_eq_bind, Option.some_bind]
            have hstep : (weights.getD (l + 1) []).length ≤ (pres.getD l []).length := by
              have := masked_delta_isSome (weights.getD (l + 1) []) delta (pres.getD l [])
              rw [hmd] at this
              exact this.mp (by simp)
            cases hrest : backward_layers weights biases acts pres N l
                (back_delta (weights.getD (l + 1) []) factors
                  (acts.getD (l + 1) []).length) with
            | none =>
                have hr := (ih (back_delta (weights.getD (l + 1) []) factors
                  (acts.getD (l + 1) []).length))
                rw [hrest] at hr
                simp only [Option.none_bind, Option.isSome_none, Bool.false_eq_true, false_iff]
                intro hall
                have : ∀ m, 1 ≤ m → m ≤ l → m < N - 1 →
                    (weights.getD m []).length ≤ (pres.getD (m - 1) []).length :=
                  fun m h1 h2 h3 => hall m h1 (by omega) h3
                simpa using hr.mpr this
            | some rest =>
                have hr := (ih (back_delta (weights.getD (l + 1) []) factors
                  (acts.getD (l + 1) []).length))
                rw [hrest] at hr
                simp only [Option.some_bind, Option.isSome_some, true_iff]
                intro m h1 h2 h3
                rcases Nat.lt_or_ge m (l + 1) with hm | hm
                · exact (hr.mp (by simp)) m h1 (by omega) h3
                · have : m = l + 1 := by omega
                  subst this
                  simpa using hstep
      · rw [if_neg hc]
        simp only [Option.bind_eq_bind, Option.some_bind]
        cases hrest : backward_layers weights biases acts pres N l
            (back_delta (weights.getD (l + 1) [])
              ((List.range (weights.getD (l + 1) []).length).map
                (fun i => delta.getD i 0 * 1))
              (acts.getD (l + 1) []).length) with
        | none =>
            have hr := ih (back_delta (weights.getD (l + 1) [])
              ((List.range (weights.getD (l + 1) []).length).map
                (fun i => delta.getD i 0 * 1))
              (acts.getD (l + 1) []).length)
            rw [hrest] at hr
            simp only [Option.none_bind, Option.isSome_none, Bool.false_eq_true, false_iff]
            intro hall
            have : ∀ m, 1 ≤ m → m ≤ l → m < N - 1 →
                (weights.getD m []).length ≤ (pres.getD (m - 1) []).length :=
              fun m h1 h2 h3 => hall m h1 (by omega) h3
            simpa using hr.mpr this
        | some rest =>
            have hr := ih (back_delta (weights.getD (l + 1) [])
              ((List.range (weights.getD (l + 1) []).length).map
                (fun i => delta.getD i 0 * 1))
              (acts.getD (l + 1) []).length)
            rw [hrest] at hr
            simp only [Option.some_bind, Option.isSome_some, true_iff]
            intro m h1 h2 h3
            rcases Nat.lt_or_ge m (l + 1) with hm | hm
            · exact (hr.mp (by simp)) m h1 (by omega) h3
            · omega

theorem backward_layers_eq_amended (weights : List Mat) (biases : List Vec)
    (acts pres : List Vec) (N : ℕ) :
    ∀ (l : ℕ) (delta : Vec),
      (∀ m, 1 ≤ m → m ≤ l → m < N - 1 →
        (weights.getD m []).length ≤ (pres.getD (m - 1) []).length) →
      backward_layers weights biases acts pres N l delta
        = some (backward_layers_amended weights biases acts pres N l delta) := by
  intro l
  induction l with
  | zero => intro delta h; rfl
  | succ l ih =>
      intro delta h
      rw [backward_layers, backward_layers_amended]
      by_cases hc : l + 1 < N - 1
      · have hle := h (l + 1) (by omega) (le_refl _) hc
        simp only [if_pos hc]
        rw [masked_delta_eq _ _ _ (by simpa using hle)]
        rw [Option.bind_eq_bind, Option.some_bind]
        rw [back_delta_eq_transpose _ _ _ (by simp)]
        rw [ih _ (fun m h1 h2 h3 => h m h1 (by omega) h3)]
        rfl
      · simp only [if_neg hc]
        rw [Option.bind_eq_bind, Option.some_bind]
        rw [back_delta_eq_transpose _ _ _ (by simp)]
        rw [ih _ (fun m h1 h2 h3 => h m h1 (by omega) h3)]
        rfl

/-- For interior-non-expanding architectures the backward pass never fails
and equals its transposed-matrix reformulation. -/
theorem backward_eq_amended_of_safe (net : Network) (input target predicted : Vec)
    (h : ∀ l < net.weights.length, 1 ≤ l → l + 1 < net.weights.length →
      (net.weights.getD l []).length ≤ (net.weights.getD (l - 1) []).length) :
    net.backward input target predicted
      = some (net.backward_amended input target predicted) := by
  unfold Network.backward Network.backward_amended
  cases hn : net.weights.length with
  | zero => rfl
  | succ n =>
      apply backward_layers_eq_amended
      intro m h1 h2 h3
      have hm : m < net.weights.length := by omega
      have hstep := h m hm h1 (by omega)
      have hpre := forward_trace_pre_length net.weights net.biases input (m - 1)
        (by omega)
      omega

/-! ## Claim C1 -/

/-- Claim C1, counterexample: on the concrete 1-2-2-1 network `netC1`, the
gradients computed by `Network::backward` differ from those obtained by
propagating error as the claim words it ("multiply the transposed weight
matrix by delta and apply a ReLU-derivative mask that is 1 where the
corresponding pre-activation is > 0", i.e. masked at the receiving unit's
pre-activation, with the final-layer exception).  The claim as stated is
therefore false: the code indexes the mask by the current layer's output
unit, not by the receiving unit. -/
theorem c1_mask_indexing_counterexample :
    netC1.backward [1] [1] [2] ≠ some (netC1.backward_specmask [1] [1] [2]) := by
  norm_num [Network.backward, Network.backward_specmask, backward_layers,
    backward_layers_specmask, forward_trace, masked_delta, option_map_list, back_delta,
    mat_transpose, matvec_mult, add_bias, layer_grads, relu, relu_derivative, netC1,
    List.range_succ]

/-- Claim C1, amended: for every network and input, `Network::backward`
propagates error one layer back by multiplying the transposed weight matrix
by the elementwise product of `delta` with a ReLU-derivative factor vector
indexed by the CURRENT layer's output unit `i` — the factor is 1 exactly
when the PREVIOUS layer's pre-activation at index `i` is > 0 (and forced to
1 for every unit when propagating from the final, linear layer) — provided
the mask read stays in bounds, i.e. every non-first, non-final layer's
fan_out is at most its fan_in (claim C9). -/
theorem c1_backward_amended_rule (net : Network) (input target predicted : Vec)
    (h : ∀ l < net.weights.length, 1 ≤ l → l + 1 < net.weights.length →
      (net.weights.getD l []).length ≤ (net.weights.getD (l - 1) []).length) :
    net.backward input target predicted
      = some (net.backward_amended input target predicted) :=
  backward_eq_amended_of_safe net input target predicted h

/-- Claim C1, witness: the amended propagation rule evaluated on `netC1`. -/
theorem c1_backward_amended_rule_witness :
    netC1.backward [1] [1] [2] = some (netC1.backward_amended [1] [1] [2]) :=
  c1_backward_amended_rule netC1 [1] [1] [2] (by decide)

/-! ## Claim C9 -/

/-- Claim C9, counterexample: the network `netC9a` with layer sizes
`[1, 1, 2]` has a non-first layer (its final layer) whose fan_out 2 exceeds
its fan_in 1, yet `backward` performs no out-of-bounds read (the result is
`some`): propagating from the final layer never evaluates the masked
pre-activation read, so the claim's "for every architecture in which some
non-first layer's fan_out exceeds its fan_in" is false as stated. -/
theorem c9_oob_counterexample :
    netC9a.layer_sizes = [1, 1, 2] ∧
    (netC9a.weights.getD 1 []).length = 2 ∧
    (netC9a.weights.getD 0 []).length = 1 ∧
    (netC9a.backward [1] [0, 0] [1, 1]).isSome = true := by
  refine ⟨rfl, rfl, rfl, ?_⟩
  decide

/-- Claim C9, amended: `backward` reads the previous layer's pre-activation
vector at the index of the current layer's output unit, and the read is
evaluated exactly for non-first, NON-FINAL layers (the final layer's
propagation forces the factor 1 without reading).  Hence for every network
whose weight-matrix row counts match its declared layer sizes, `backward`
stays in bounds for all inputs if and only if every non-first, non-final
layer's fan_out is at most its fan_in; on the architecture {4, 2, 8, 2}
named by the claim (interior layer 2→8) the read is out of bounds. -/
theorem c9_backward_oob_iff (net : Network) (input target predicted : Vec)
    (hwf : ∀ l < net.weights.length,
      (net.weights.getD l []).length = net.layer_sizes.getD (l + 1) 0) :
    ((net.backward input target predicted).isSome = true ↔
      ∀ l < net.weights.length, 1 ≤ l → l + 1 < net.weights.length →
        net.layer_sizes.getD (l + 1) 0 ≤ net.layer_sizes.getD l 0) ∧
    netC9b.backward [1, 0, 0, 0] [0, 0] [0, 0] = none := by
  constructor
  · unfold Network.backward
    cases hn : net.weights.length with
    | zero =>
        simp only [Option.isSome_some, true_iff]
        intro l hl
        omega
    | succ n =>
        rw [backward_layers_isSome]
        constructor
        · intro hall l hl h1 h2
          have hcond := hall l h1 (by omega) (by omega)
          have hpre := forward_trace_pre_length net.weights net.biases input (l - 1)
            (by omega)
          have hw1 := hwf l (by omega)
          have hw0 := hwf (l - 1) (by omega)
          have : l - 1 + 1 = l := by omega
          rw [this] at hw0
          omega
        · intro hall m h1 h2 h3
          have hcond := hall m (by omega) h1 (by omega)
          have hpre := forward_trace_pre_length net.weights net.biases input (m - 1)
            (by omega)
          have hw1 := hwf m (by omega)
          have hw0 := hwf (m - 1) (by omega)
          have : m - 1 + 1 = m := by omega
          rw [this] at hw0
          omega
  · decide

/-- Claim C9, witness: the in-bounds characterization applied to the
concrete network `netC9a` (final layer 1→2, no interior expansion). -/
theorem c9_backward_oob_iff_witness :
    (netC9a.backward [1] [0, 0] [1, 1]).isSome = true := by
  rw [(c9_backward_oob_iff netC9a [1] [0, 0] [1, 1] (by decide)).1]
  decide

/-! ## Lemmas about the replay buffer -/

theorem create_experiences (α : Type) (c : ℕ) : (ReplayBuffer.create α c).experiences = [] := rfl

theorem create_write_index (α : Type) (c : ℕ) : (ReplayBuffer.create α c).write_index = 0 := rfl

theorem create_capacity (α : Type) (c : ℕ) : (ReplayBuffer.create α c).capacity = c := rfl

theorem getD_set_self {α : Type} (l : List α) (i : ℕ) (a d : α) (h : i < l.length) :
    (l.set i a).getD i d = a := by
  rw [List.getD_eq_getElem?_getD, List.getElem?_set_self (by simpa using h)]
  rfl

theorem getD_set_ne {α : Type} (l : List α) (i j : ℕ) (a d : α) (h : i ≠ j) :
    (l.set i a).getD j d = l.getD j d := by
  rw [List.getD_eq_getElem?_getD, List.getElem?_set_ne h, ← List.getD_eq_getElem?_getD]

theorem getD_range (n i : ℕ) (d : ℕ) (h : i < n) : (List.range n).getD i d = i := by
  rw [List.getD_eq_getElem _ _ (by simpa using h), List.getElem_range]

theorem push_all_append {α : Type} (b : ReplayBuffer α) (xs : List α) (x : α) :
    b.push_all (xs ++ [x]) = (b.push_all xs).push x := by
  simp [ReplayBuffer.push_all, List.foldl_append]

theorem push_all_capacity {α : Type} (b : ReplayBuffer α) (xs : List α) :
    (b.push_all xs).capacity = b.capacity := by
  induction xs generalizing b with
  | nil => rfl
  | cons x xs ih =>
      rw [ReplayBuffer.push_all, List.foldl_cons, ← ReplayBuffer.push_all, ih]
      unfold ReplayBuffer.push
      by_cases h : b.experiences.length < b.capacity <;> simp [h]

theorem push_all_fill {α : Type} (xs : List α) :
    ∀ (b : ReplayBuffer α), b.experiences.length + xs.length ≤ b.capacity →
      b.push_all xs = { b with experiences := b.experiences ++ xs } := by
  induction xs with
  | nil => intro b h; simp [ReplayBuffer.push_all]
  | cons x xs ih =>
      intro b h
      rw [ReplayBuffer.push_all, List.foldl_cons, ← ReplayBuffer.push_all]
      have hlt : b.experiences.length < b.capacity := by
        simp at h
        omega
      rw [ReplayBuffer.push, if_pos hlt]
      rw [ih _ (by simp at h ⊢; omega)]
      simp

/-- The circular-buffer invariant after pushing `0, 1, ..., n-1` into a fresh
buffer of capacity `c ≤ n`: the stored list has length `c`, the cursor is at
`(n - c) % c`, and reading `c` slots cyclically from the cursor yields
`n - c, ..., n - 1` in order. -/
theorem push_all_range_invariant (c : ℕ) (hc : 1 ≤ c) :
    ∀ n, c ≤ n →
      ((ReplayBuffer.create ℕ c).push_all (List.range n)).experiences.length = c ∧
      ((ReplayBuffer.create ℕ c).push_all (List.range n)).write_index = (n - c) % c ∧
      (∀ i < c, ((ReplayBuffer.create ℕ c).push_all (List.range n)).experiences.getD
        ((((ReplayBuffer.create ℕ c).push_all (List.range n)).write_index + i) % c) 0
          = (n - c) + i) := by
  intro n hn
  induction n, hn using Nat.le_induction with
  | base =>
      rw [push_all_fill (List.range c) _
        (by simp [create_experiences, create_capacity])]
      refine ⟨by simp [create_experiences], by simp [create_write_index], ?_⟩
      intro i hi
      simp only [create_experiences, create_write_index, List.nil_append, Nat.sub_self,
        Nat.zero_mod, Nat.zero_add]
      rw [Nat.mod_eq_of_lt hi, getD_range _ _ _ hi]
  | succ n hn ih =>
      obtain ⟨ihlen, ihwi, ihget⟩ := ih
      rw [List.range_succ, push_all_append]
      set b := (ReplayBuffer.create ℕ c).push_all (List.range n) with hb
      have hcap : b.capacity = c := push_all_capacity _ _
      have hfull : ¬ b.experiences.length < b.capacity := by
        rw [ihlen, hcap]
        omega
      rw [ReplayBuffer.push, if_neg hfull]
      have hwi_lt : b.write_index < c := by
        rw [ihwi]
        exact Nat.mod_lt _ (by omega)
      refine ⟨by simpa using ihlen, ?_, ?_⟩
      · simp only [hcap]
        rw [ihwi, Nat.mod_add_mod]
        congr 1
        omega
      · intro i hi
        simp only [hcap]
        rw [Nat.mod_add_mod]
        rcases Nat.lt_or_ge i (c - 1) with hi1 | hi1
        · have hne : b.write_index ≠ (b.write_index + 1 + i) % c := by
            intro heq
            rcases Nat.lt_or_ge (b.write_index + 1 + i) c with h2 | h2
            · rw [Nat.mod_eq_of_lt h2] at heq
              omega
            · rw [Nat.mod_eq_sub_mod h2,
                Nat.mod_eq_of_lt (by omega)] at heq
              omega
          rw [getD_set_ne _ _ _ _ _ hne]
          have := ihget (i + 1) (by omega)
          rw [show b.write_index + 1 + i = b.write_index + (i + 1) by omega]
          rw [this]
          omega
        · have hieq : i = c - 1 := by omega
          subst hieq
          rw [show b.write_index + 1 + (c - 1) = b.write_index + c by omega]
          rw [Nat.add_mod_right, Nat.mod_eq_of_lt hwi_lt]
          rw [getD_set_self _ _ _ _ (by rw [ihlen]; exact hwi_lt)]
          omega

/-! ## Claim C4 -/

/-- Claim C4: pushing `c + k` distinct experiences (tagged `0, ..., c+k-1`)
into a fresh buffer of capacity `c ≥ 1` (`k ≥ 1`) leaves logical size `c`;
the buffer then contains exactly the last `c` pushed tags; reading
cyclically from the write cursor yields them oldest-first
(`k, k+1, ..., c+k-1`); and every push on a buffer at capacity overwrites
the slot at the write cursor and advances the cursor modulo the capacity. -/
theorem c4_push_fifo_eviction (c k : ℕ) (hc : 1 ≤ c) (hk : 1 ≤ k) :
    ((ReplayBuffer.create ℕ c).push_all (List.range (c + k))).experiences.length = c ∧
    (∀ x, x ∈ ((ReplayBuffer.create ℕ c).push_all (List.range (c + k))).experiences ↔
      k ≤ x ∧ x < c + k) ∧
    ((ReplayBuffer.create ℕ c).push_all (List.range (c + k))).write_index = k % c ∧
    (∀ i < c, ((ReplayBuffer.create ℕ c).push_all (List.range (c + k))).experiences.getD
      ((((ReplayBuffer.create ℕ c).push_all (List.range (c + k))).write_index + i) % c) 0
        = k + i) ∧
    (∀ (b : ReplayBuffer ℕ) (e : ℕ), b.experiences.length = b.capacity → 1 ≤ b.capacity →
      (b.push e).experiences = b.experiences.set b.write_index e ∧
      (b.push e).write_index = (b.write_index + 1) % b.capacity) := by
  obtain ⟨hlen, hwi, hget⟩ := push_all_range_invariant c hc (c + k) (by omega)
  have hkc : c + k - c = k := by omega
  rw [hkc] at hwi hget
  set b := (ReplayBuffer.create ℕ c).push_all (List.range (c + k)) with hb
  have hwi_lt : b.write_index < c := by
    rw [hwi]
    exact Nat.mod_lt _ (by omega)
  refine ⟨hlen, ?_, hwi, hget, ?_⟩
  · intro x
    constructor
    · intro hx
      obtain ⟨j, hj, hxj⟩ := List.mem_iff_getElem.mp hx
      have hjc : j < c := by omega
      have hidx : (b.write_index + (j + c - b.write_index) % c) % c = j := by
        rw [Nat.add_mod, Nat.mod_mod_of_dvd _ dvd_rfl, ← Nat.add_mod]
        rw [show b.write_index + (j + c - b.write_index) = j + c by omega]
        rw [Nat.add_mod_right, Nat.mod_eq_of_lt hjc]
      have hval := hget ((j + c - b.write_index) % c) (Nat.mod_lt _ (by omega))
      rw [hidx] at hval
      rw [List.getD_eq_getElem _ _ (by omega), hxj] at hval
      have : (j + c - b.write_index) % c < c := Nat.mod_lt _ (by omega)
      omega
    · intro ⟨hx1, hx2⟩
      have hval := hget (x - k) (by omega)
      have hlt : (b.write_index + (x - k)) % c < b.experiences.length := by
        rw [hlen]
        exact Nat.mod_lt _ (by omega)
      rw [List.getD_eq_getElem _ _ hlt] at hval
      have : b.experiences[(b.write_index + (x - k)) % c] = x := by
        rw [hval]
        omega
      rw [← this]
      exact List.getElem_mem _
  · intro b' e hfull hcap
    have hnot : ¬ b'.experiences.length < b'.capacity := by omega
    rw [ReplayBuffer.push, if_neg hnot]
    exact ⟨rfl, rfl⟩

/-- Claim C4, witness: the FIFO theorem instantiated at capacity 2 with 5
pushes. -/
theorem c4_push_fifo_eviction_witness :
    ((ReplayBuffer.create ℕ 2).push_all (List.range 5)).experiences.length = 2 ∧
    (∀ x, x ∈ ((ReplayBuffer.create ℕ 2).push_all (List.range 5)).experiences ↔
      3 ≤ x ∧ x < 5) ∧
    ((ReplayBuffer.create ℕ 2).push_all (List.range 5)).write_index = 3 % 2 ∧
    (∀ i < 2, ((ReplayBuffer.create ℕ 2).push_all (List.range 5)).experiences.getD
      ((((ReplayBuffer.create ℕ 2).push_all (List.range 5)).write_index + i) % 2) 0
        = 3 + i) ∧
    (∀ (b : ReplayBuffer ℕ) (e : ℕ), b.experiences.length = b.capacity → 1 ≤ b.capacity →
      (b.push e).experiences = b.experiences.set b.write_index e ∧
      (b.push e).write_index = (b.write_index + 1) % b.capacity) :=
  c4_push_fifo_eviction 2 3 (by decide) (by decide)

/-! ## Claim C7 -/

/-- Claim C7: `sample(n)` with `n` at most the current size returns exactly
the experiences at the first `n` slots of the supplied permutation of all
held indices — `n` entries from `n` distinct, in-range slots — and, being a
pure function of the buffer, leaves the contents unchanged; with `n`
exceeding the current size it fails with `InsufficientSamples`. -/
theorem c7_sample_spec {α : Type} [Inhabited α] (b : ReplayBuffer α) (n : ℕ)
    (shuffled : List ℕ) :
    (b.experiences.length < n → b.sample n shuffled = .error .insufficientSamples) ∧
    (n ≤ b.experiences.length → shuffled.Perm (List.range b.experiences.length) →
      b.sample n shuffled =
        .ok ((shuffled.take n).map (fun i => b.experiences.getD i default)) ∧
      (shuffled.take n).length = n ∧
      (shuffled.take n).Nodup ∧
      (∀ i ∈ shuffled.take n, i < b.experiences.length)) := by
  constructor
  · intro h
    rw [ReplayBuffer.sample, if_pos h]
  · intro hn hperm
    have hlen : shuffled.length = b.experiences.length := by
      simpa using hperm.length_eq
    refine ⟨?_, ?_, ?_, ?_⟩
    · rw [ReplayBuffer.sample, if_neg (by omega)]
    · rw [List.length_take, hlen]
      omega
    · exact (List.take_sublist _ _).nodup (hperm.nodup_iff.mpr (List.nodup_range _))
    · intro i hi
      have : i ∈ shuffled := List.mem_of_mem_take hi
      have := hperm.mem_iff.mp this
      simpa using this

/-- Claim C7, witness: sampling 2 of 3 stored values with the permutation
`[2, 0, 1]`. -/
theorem c7_sample_spec_witness :
    (((⟨[10, 20, 30], 3, 0⟩ : ReplayBuffer ℕ)).sample 2 [2, 0, 1] = .ok [30, 10] ∧
      ([2, 0, 1].take 2).Nodup) ∧
    ((⟨[10, 20, 30], 3, 0⟩ : ReplayBuffer ℕ)).sample 4 [2, 0, 1]
      = .error .insufficientSamples := by
  have h := c7_sample_spec (⟨[10, 20, 30], 3, 0⟩ : ReplayBuffer ℕ) 2 [2, 0, 1]
  have h4 := c7_sample_spec (⟨[10, 20, 30], 3, 0⟩ : ReplayBuffer ℕ) 4 [2, 0, 1]
  obtain ⟨hok, _, hnodup, _⟩ := h.2 (by decide) (by decide)
  exact ⟨⟨by rw [hok]; simp, hnodup⟩, h4.1 (by decide)⟩

/-! ## Claim C10 -/

/-- Claim C10: `clear()` empties the stored experiences but leaves the write
cursor at its prior value.  Concretely, a capacity-2 buffer filled past
capacity (cursor at 1), cleared and refilled with 2 fresh experiences keeps
the stale cursor 1; the next push then overwrites slot 1 — which holds the
NEWEST post-clear experience, not the oldest — so tag 11 is evicted while
the older tag 10 survives: FIFO eviction fails after a clear that follows
wrap-around. -/
theorem c10_clear_keeps_stale_cursor :
    (∀ (b : ReplayBuffer ℕ), b.clear.write_index = b.write_index ∧
      b.clear.experiences = [] ∧ b.clear.capacity = b.capacity) ∧
    ((ReplayBuffer.create ℕ 2).push_all [0, 1, 2]).write_index = 1 ∧
    (((ReplayBuffer.create ℕ 2).push_all [0, 1, 2]).clear.push_all [10, 11]).experiences
      = [10, 11] ∧
    (((ReplayBuffer.create ℕ 2).push_all [0, 1, 2]).clear.push_all [10, 11]).write_index
      = 1 ∧
    ((((ReplayBuffer.create ℕ 2).push_all [0, 1, 2]).clear.push_all [10, 11]).push 12).experiences
      = [10, 12] := by
  refine ⟨fun b => ⟨rfl, rfl, rfl⟩, ?_, ?_, ?_, ?_⟩ <;> decide

/-! ## Lemmas about `overwrite_upto` (the in-place update loops) -/

theorem overwrite_from_length {α : Type} (f : ℕ → α → α) (n : ℕ) :
    ∀ (start : ℕ) (xs : List α), (overwrite_from f n start xs).length = xs.length := by
  intro start xs
  induction xs generalizing start with
  | nil => rfl
  | cons x xs ih => simp [overwrite_from, ih]

theorem overwrite_upto_length {α : Type} (f : ℕ → α → α) (n : ℕ) (xs : List α) :
    (overwrite_upto f n xs).length = xs.length :=
  overwrite_from_length f n 0 xs

theorem overwrite_from_getD {α : Type} (f : ℕ → α → α) (n : ℕ) :
    ∀ (xs : List α) (start k : ℕ) (d : α), k < xs.length →
      (overwrite_from f n start xs).getD k d =
        if start + k < n then f (start + k) (xs.getD k d) else xs.getD k d := by
  intro xs
  induction xs with
  | nil => intro start k d hk; simp at hk
  | cons x xs ih =>
      intro start k d hk
      cases k with
      | zero => simp [overwrite_from]
      | succ k =>
          simp only [overwrite_from, List.getD_cons_succ]
          rw [ih (start + 1) k d (by simpa using hk)]
          have : start + 1 + k = start + (k + 1) := by omega
          rw [this]

theorem overwrite_upto_getD {α : Type} (f : ℕ → α → α) (n : ℕ) (xs : List α)
    (k : ℕ) (d : α) (hk : k < xs.length) :
    (overwrite_upto f n xs).getD k d =
      if k < n then f k (xs.getD k d) else xs.getD k d := by
  rw [overwrite_upto, overwrite_from_getD f n xs 0 k d hk]
  simp

theorem getD_map_of_lt {α β : Type} (f : α → β) (l : List α) (i : ℕ) (d : β) (d' : α)
    (h : i < l.length) : (l.map f).getD i d = f (l.getD i d') := by
  rw [List.getD_eq_getElem _ _ (by simpa using h), List.getElem_map,
    List.getD_eq_getElem _ _ h]

/-- Length agreement extracted from weight-shape equality. -/
theorem w3_shape_length_eq {a b : List Mat} (h : w3_shape a = w3_shape b) :
    a.length = b.length := by
  have := congrArg List.length h
  simpa [w3_shape] using this

theorem w3_shape_getD_eq {a b : List Mat} (h : w3_shape a = w3_shape b)
    (l : ℕ) (hl : l < b.length) :
    (a.getD l []).map List.length = (b.getD l []).map List.length := by
  have hlen : a.length = b.length := w3_shape_length_eq h
  have := congrArg (fun x => x.getD l ([] : List ℕ)) h
  simp only [w3_shape] at this
  rwa [getD_map_of_lt _ _ _ _ [] (by omega), getD_map_of_lt _ _ _ _ [] hl] at this

theorem w3_shape_row_eq {a b : List Mat} (h : w3_shape a = w3_shape b)
    (l : ℕ) (hl : l < b.length) :
    (a.getD l []).length = (b.getD l []).length := by
  have := congrArg List.length (w3_shape_getD_eq h l hl)
  simpa using this

theorem w3_shape_col_eq {a b : List Mat} (h : w3_shape a = w3_shape b)
    (l i : ℕ) (hl : l < b.length) (hi : i < (b.getD l []).length) :
    ((a.getD l []).getD i []).length = ((b.getD l []).getD i []).length := by
  have hrow := w3_shape_row_eq h l hl
  have := congrArg (fun x => x.getD i (0 : ℕ)) (w3_shape_getD_eq h l hl)
  simp only at this
  rwa [getD_map_of_lt _ _ _ _ [] (by omega), getD_map_of_lt _ _ _ _ [] hi] at this

theorem b2_shape_length_eq {a b : List Vec} (h : b2_shape a = b2_shape b) :
    a.length = b.length := by
  have := congrArg List.length h
  simpa [b2_shape] using this

theorem b2_shape_row_eq {a b : List Vec} (h : b2_shape a = b2_shape b)
    (l : ℕ) (hl : l < b.length) :
    (a.getD l []).length = (b.getD l []).length := by
  have hlen := b2_shape_length_eq h
  have := congrArg (fun x => x.getD l (0 : ℕ)) h
  simp only [b2_shape] at this
  rwa [getD_map_of_lt _ _ _ _ [] (by omega), getD_map_of_lt _ _ _ _ [] hl] at this

/-! ## Claim C3 -/

/-- Claim C3: every `AdamOptimizer::update` call increments the internal
step counter `t` and then updates every scalar parameter `p` with supplied
gradient `g` by `m = beta1*m + (1-beta1)*g`, `v = beta2*v + (1-beta2)*g^2`,
`m_hat = m/(1-beta1^t)`, `v_hat = v/(1-beta2^t)`,
`p -= learning_rate * m_hat / (sqrt(v_hat) + epsilon)`, with weights and
biases sharing the same hyperparameters; the moment values entering the
formulas are fresh zeros (allocation zero-initialized at the supplied
shapes) exactly when the call is the first after construction or reset
(`step = 0`), and the previously stored moments otherwise. -/
theorem c3_adam_update_step (sq : ℚ → ℚ) (o : AdamOptimizer)
    (weights : List Mat) (biases : List Vec)
    (weight_gradients : List Mat) (bias_gradients : List Vec)
    (hlen : biases.length = weights.length)
    (hrow : ∀ l < weights.length, (biases.getD l []).length = (weights.getD l []).length)
    (hm : o.step ≠ 0 →
      w3_shape o.m_weights = w3_shape weights ∧
      w3_shape o.v_weights = w3_shape weights ∧
      b2_shape o.m_biases = b2_shape biases ∧
      b2_shape o.v_biases = b2_shape biases) :
    (o.update sq weights biases weight_gradients bias_gradients).1.step = o.step + 1 ∧
    (w3_shape ((o.init_state weights biases).m_weights) = w3_shape weights ∧
      b2_shape ((o.init_state weights biases).m_biases) = b2_shape biases) ∧
    (∀ l, l < weights.length →
      ∀ i, i < (weights.getD l []).length →
      (((o.update sq weights biases weight_gradients bias_gradients).1.m_biases.getD l []).getD i 0 =
        o.beta1 * (if o.step = 0 then 0 else (o.m_biases.getD l []).getD i 0)
          + (1 - o.beta1) * (bias_gradients.getD l []).getD i 0 ∧
       ((o.update sq weights biases weight_gradients bias_gradients).1.v_biases.getD l []).getD i 0 =
        o.beta2 * (if o.step = 0 then 0 else (o.v_biases.getD l []).getD i 0)
          + (1 - o.beta2) * (bias_gradients.getD l []).getD i 0
          * (bias_gradients.getD l []).getD i 0 ∧
       ((o.update sq weights biases weight_gradients bias_gradients).2.2.getD l []).getD i 0 =
        (biases.getD l []).getD i 0 -
          o.learning_rate *
            ((o.beta1 * (if o.step = 0 then 0 else (o.m_biases.getD l []).getD i 0)
                + (1 - o.beta1) * (bias_gradients.getD l []).getD i 0)
              / (1 - o.beta1 ^ (o.step + 1)))
            / (sq ((o.beta2 * (if o.step = 0 then 0 else (o.v_biases.getD l []).getD i 0)
                + (1 - o.beta2) * (bias_gradients.getD l []).getD i 0
                * (bias_gradients.getD l []).getD i 0)
              / (1 - o.beta2 ^ (o.step + 1))) + o.epsilon)) ∧
      ∀ j, j < ((weights.getD l []).getD i []).length →
      ((((o.update sq weights biases weight_gradients bias_gradients).1.m_weights.getD l []).getD i []).getD j 0 =
        o.beta1 * (if o.step = 0 then 0 else ((o.m_weights.getD l []).getD i []).getD j 0)
          + (1 - o.beta1) * ((weight_gradients.getD l []).getD i []).getD j 0 ∧
       (((o.update sq weights biases weight_gradients bias_gradients).1.v_weights.getD l []).getD i []).getD j 0 =
        o.beta2 * (if o.step = 0 then 0 else ((o.v_weights.getD l []).getD i []).getD j 0)
          + (1 - o.beta2) * ((weight_gradients.getD l []).getD i []).getD j 0
          * ((weight_gradients.getD l []).getD i []).getD j 0 ∧
       (((o.update sq weights biases weight_gradients bias_gradients).2.1.getD l []).getD i []).getD j 0 =
        ((weights.getD l []).getD i []).getD j 0 -
          o.learning_rate *
            ((o.beta1 * (if o.step = 0 then 0 else ((o.m_weights.getD l []).getD i []).getD j 0)
                + (1 - o.beta1) * ((weight_gradients.getD l []).getD i []).getD j 0)
              / (1 - o.beta1 ^ (o.step + 1)))
            / (sq ((o.beta2 * (if o.step = 0 then 0 else ((o.v_weights.getD l []).getD i []).getD j 0)
                + (1 - o.beta2) * ((weight_gradients.getD l []).getD i []).getD j 0
                * ((weight_gradients.getD l []).getD i []).getD j 0)
              / (1 - o.beta2 ^ (o.step + 1))) + o.epsilon))) := by
  by_cases hstep : o.step = 0
  · refine ⟨by simp [AdamOptimizer.update, AdamOptimizer.init_state, hstep], ?_, ?_⟩
    · constructor
      · simp [AdamOptimizer.init_state, w3_shape, List.map_map, Function.comp]
      · simp [AdamOptimizer.init_state, b2_shape, List.map_map, Function.comp]
    · intro l hl i hi
      have hlb : l < biases.length := by omega
      have hib : i < (biases.getD l []).length := by rw [hrow l hl]; exact hi
      have hmbl : l < (biases.map (fun v => v.map (fun _ => (0 : ℚ)))).length := by
        simpa using hlb
      have hmbrow : ((biases.map (fun v => v.map (fun _ => (0 : ℚ)))).getD l []).length
          = (biases.getD l []).length := by
        rw [getD_map_of_lt _ _ _ _ [] hlb]
        simp
      have hmbi : i < ((biases.map (fun v => v.map (fun _ => (0 : ℚ)))).getD l []).length := by
        omega
      have hz : ((biases.map (fun v => v.map (fun _ => (0 : ℚ)))).getD l []).getD i 0 = 0 := by
        rw [getD_map_of_lt _ _ _ _ [] hlb, getD_map_of_lt _ _ _ _ 0 hib]
      have hwl : l < weights.length := hl
      have hmwl : l < (weights.map (fun M => M.map (fun r => r.map (fun _ => (0 : ℚ))))).length := by
        simpa using hwl
      have hmwrow : ((weights.map (fun M => M.map (fun r => r.map (fun _ => (0 : ℚ))))).getD l []).length
          = (weights.getD l []).length := by
        rw [getD_map_of_lt _ _ _ _ [] hwl]
        simp
      refine ⟨⟨?_, ?_, ?_⟩, ?_⟩
      · simp only [AdamOptimizer.update, AdamOptimizer.init_state, hstep, if_pos]
        rw [overwrite_upto_getD _ _ _ _ _ hmbl, if_pos hl,
          overwrite_upto_getD _ _ _ _ _ hmbi, if_pos hi, hz]
      · simp only [AdamOptimizer.update, AdamOptimizer.init_state, hstep, if_pos]
        rw [overwrite_upto_getD _ _ _ _ _ hmbl, if_pos hl,
          overwrite_upto_getD _ _ _ _ _ hmbi, if_pos hi, hz]
      · simp only [AdamOptimizer.update, AdamOptimizer.init_state, hstep, if_pos]
        rw [overwrite_upto_getD _ _ _ _ _ hlb, if_pos hl,
          overwrite_upto_getD _ _ _ _ _ hib, if_pos hi]
        rw [overwrite_upto_getD _ _ _ _ _ hmbl, if_pos hl,
          overwrite_upto_getD _ _ _ _ _ hmbi, if_pos hi, hz]
        rw [overwrite_upto_getD _ _ _ _ _ hmbl, if_pos hl,
          overwrite_upto_getD _ _ _ _ _ hmbi, if_pos hi, hz]
      · intro j hj
        have hmwi : i < ((weights.map (fun M => M.map (fun r => r.map (fun _ => (0 : ℚ))))).getD l []).length := by
          omega
        have hmwcol : (((weights.map (fun M => M.map (fun r => r.map (fun _ => (0 : ℚ))))).getD l []).getD i []).length
            = ((weights.getD l []).getD i []).length := by
          rw [getD_map_of_lt _ _ _ _ [] hwl, getD_map_of_lt _ _ _ _ [] hi]
          simp
        have hmwj : j < (((weights.map (fun M => M.map (fun r => r.map (fun _ => (0 : ℚ))))).getD l []).getD i []).length := by
          omega
        have hwz : (((weights.map (fun M => M.map (fun r => r.map (fun _ => (0 : ℚ))))).getD l []).getD i []).getD j 0 = 0 := by
          rw [getD_map_of_lt _ _ _ _ [] hwl, getD_map_of_lt _ _ _ _ [] hi,
            getD_map_of_lt _ _ _ _ 0 hj]
        refine ⟨?_, ?_, ?_⟩
        · simp only [AdamOptimizer.update, AdamOptimizer.init_state, hstep, if_pos]
          rw [overwrite_upto_getD _ _ _ _ _ hmwl, if_pos hl,
            overwrite_upto_getD _ _ _ _ _ hmwi, if_pos hi,
            overwrite_upto_getD _ _ _ _ _ hmwj, if_pos hj, hwz]
        · simp only [AdamOptimizer.update, AdamOptimizer.init_state, hstep, if_pos]
          rw [overwrite_upto_getD _ _ _ _ _ hmwl, if_pos hl,
            overwrite_upto_getD _ _ _ _ _ hmwi, if_pos hi,
            overwrite_upto_getD _ _ _ _ _ hmwj, if_pos hj, hwz]
        · simp only [AdamOptimizer.update, AdamOptimizer.init_state, hstep, if_pos]
          rw [overwrite_upto_getD _ _ _ _ _ (by simpa using hwl), if_pos hl,
            overwrite_upto_getD _ _ _ _ _ hi, if_pos hi,
            overwrite_upto_getD _ _ _ _ _ hj, if_pos hj]
          rw [overwrite_upto_getD _ _ _ _ _ hmwl, if_pos hl,
            overwrite_upto_getD _ _ _ _ _ hmwi, if_pos hi,
            overwrite_upto_getD _ _ _ _ _ hmwj, if_pos hj, hwz]
          rw [overwrite_upto_getD _ _ _ _ _ hmwl, if_pos hl,
            overwrite_upto_getD _ _ _ _ _ hmwi, if_pos hi,
            overwrite_upto_getD _ _ _ _ _ hmwj, if_pos hj, hwz]
  · obtain ⟨hmw, hvw, hmb, hvb⟩ := hm hstep
    refine ⟨by simp [AdamOptimizer.update, hstep], ?_, ?_⟩
    · constructor
      · simp [AdamOptimizer.init_state, w3_shape, List.map_map, Function.comp]
      · simp [AdamOptimizer.init_state, b2_shape, List.map_map, Function.comp]
    · intro l hl i hi
      have hlb : l < biases.length := by omega
      have hib : i < (biases.getD l []).length := by rw [hrow l hl]; exact hi
      have hmbl : l < o.m_biases.length := by
        rw [b2_shape_length_eq hmb]; exact hlb
      have hmbi : i < (o.m_biases.getD l []).length := by
        rw [b2_shape_row_eq hmb l hlb]; exact hib
      have hvbl : l < o.v_biases.length := by
        rw [b2_shape_length_eq hvb]; exact hlb
      have hvbi : i < (o.v_biases.getD l []).length := by
        rw [b2_shape_row_eq hvb l hlb]; exact hib
      have hmwl : l < o.m_weights.length := by
        rw [w3_shape_length_eq hmw]; exact hl
      have hmwi : i < (o.m_weights.getD l []).length := by
        rw [w3_shape_row_eq hmw l hl]; exact hi
      have hvwl : l < o.v_weights.length := by
        rw [w3_shape_length_eq hvw]; exact hl
      have hvwi : i < (o.v_weights.getD l []).length := by
        rw [w3_shape_row_eq hvw l hl]; exact hi
      refine ⟨⟨?_, ?_, ?_⟩, ?_⟩
      · simp only [AdamOptimizer.update, hstep, if_neg, ite_false]
        rw [overwrite_upto_getD _ _ _ _ _ hmbl, if_pos hl,
          overwrite_upto_getD _ _ _ _ _ hmbi, if_pos hi]
      · simp only [AdamOptimizer.update, hstep, if_neg, ite_false]
        rw [overwrite_upto_getD _ _ _ _ _ hvbl, if_pos hl,
          overwrite_upto_getD _ _ _ _ _ hvbi, if_pos hi]
      · simp only [AdamOptimizer.update, hstep, if_neg, ite_false]
        rw [overwrite_upto_getD _ _ _ _ _ hlb, if_pos hl,
          overwrite_upto_getD _ _ _ _ _ hib, if_pos hi]
        rw [overwrite_upto_getD _ _ _ _ _ hmbl, if_pos hl,
          overwrite_upto_getD _ _ _ _ _ hmbi, if_pos hi]
        rw [overwrite_upto_getD _ _ _ _ _ hvbl, if_pos hl,
          overwrite_upto_getD _ _ _ _ _ hvbi, if_pos hi]
      · intro j hj
        have hmwj : j < ((o.m_weights.getD l []).getD i []).length := by
          rw [w3_shape_col_eq hmw l i hl hi]; exact hj
        have hvwj : j < ((o.v_weights.getD l []).getD i []).length := by
          rw [w3_shape_col_eq hvw l i hl hi]; exact hj
        refine ⟨?_, ?_, ?_⟩
        · simp only [AdamOptimizer.update, hstep, if_neg, ite_false]
          rw [overwrite_upto_getD _ _ _ _ _ hmwl, if_pos hl,
            overwrite_upto_getD _ _ _ _ _ hmwi, if_pos hi,
            overwrite_upto_getD _ _ _ _ _ hmwj, if_pos hj]
        · simp only [AdamOptimizer.update, hstep, if_neg, ite_false]
          rw [overwrite_upto_getD _ _ _ _ _ hvwl, if_pos hl,
            overwrite_upto_getD _ _ _ _ _ hvwi, if_pos hi,
            overwrite_upto_getD _ _ _ _ _ hvwj, if_pos hj]
        · simp only [AdamOptimizer.update, hstep, if_neg, ite_false]
          rw [overwrite_upto_getD _ _ _ _ _ hl, if_pos hl,
            overwrite_upto_getD _ _ _ _ _ hi, if_pos hi,
            overwrite_upto_getD _ _ _ _ _ hj, if_pos hj]
          rw [overwrite_upto_getD _ _ _ _ _ hmwl, if_pos hl,
            overwrite_upto_getD _ _ _ _ _ hmwi, if_pos hi,
            overwrite_upto_getD _ _ _ _ _ hmwj, if_pos hj]
          rw [overwrite_upto_getD _ _ _ _ _ hvwl, if_pos hl,
            overwrite_upto_getD _ _ _ _ _ hvwi, if_pos hi,
            overwrite_upto_getD _ _ _ _ _ hvwj, if_pos hj]

/-- Claim C3, witness: one update on a 1-parameter tensor pair from a fresh
optimizer (`step = 0`). -/
theorem c3_adam_update_step_witness :
    ((AdamOptimizer.create 1 (1/2) (1/2) 1).update (fun x => x) [[[1]]] [[1]] [[[2]]] [[3]]).1.step
      = (AdamOptimizer.create 1 (1/2) (1/2) 1).step + 1 ∧
    (((AdamOptimizer.create 1 (1/2) (1/2) 1).update (fun x => x) [[[1]]] [[1]] [[[2]]] [[3]]).1.m_biases.getD 0 []).getD 0 0
      = (AdamOptimizer.create 1 (1/2) (1/2) 1).beta1 *
          (if (AdamOptimizer.create 1 (1/2) (1/2) 1).step = 0 then 0
           else ((AdamOptimizer.create 1 (1/2) (1/2) 1).m_biases.getD 0 []).getD 0 0)
        + (1 - (AdamOptimizer.create 1 (1/2) (1/2) 1).beta1) * (([[3]] : List Vec).getD 0 []).getD 0 0 := by
  have h := c3_adam_update_step (fun x => x) (AdamOptimizer.create 1 (1/2) (1/2) 1)
    [[[1]]] [[1]] [[[2]]] [[3]] (by decide) (by decide) (fun hc => absurd rfl hc)
  exact ⟨h.1, (h.2.2 0 (by decide) 0 (by decide)).1.1⟩

/-! ## Claim C5 -/

/-- Claim C5: `update_target_network()` makes the target network's weight
tensors equal the main network's at call time while leaving every bias
tensor of the target network (and everything else in the agent) exactly as
it was: the result is the agent with only the target network's weight field
replaced.  Biases are never copied. -/
theorem c5_update_target_weights_only (agent : DQNAgent)
    (h : w3_shape agent.main_network.weights = w3_shape agent.target_network.weights) :
    agent.update_target_network = some
      { agent with target_network :=
          { agent.target_network with weights := agent.main_network.weights } } := by
  unfold DQNAgent.update_target_network Network.set_weights Network.get_weights
  rw [if_pos h]
  rfl

/-- Claim C5, witness: target update on the concrete agent `agentW`. -/
theorem c5_update_target_weights_only_witness :
    agentW.update_target_network = some
      { agentW with target_network :=
          { agentW.target_network with weights := agentW.main_network.weights } } :=
  c5_update_target_weights_only agentW (by decide)

/-! ## Claim C6 -/

/-- Claim C6: with fewer stored experiences than `batch_size`, `train()`
returns loss 0.0 and performs no update at all — the returned agent is the
argument itself, so the training-step counter, both networks, the optimizer
state and the buffer are all unchanged (silent skip, not an error). -/
theorem c6_train_below_threshold_skips (sq : ℚ → ℚ) (agent : DQNAgent) (shuffled : List ℕ)
    (h : agent.replay_buffer.experiences.length < agent.config.batch_size) :
    agent.train sq shuffled = some (0, agent) := by
  have hcs : agent.replay_buffer.can_sample agent.config.batch_size = false := by
    simp only [ReplayBuffer.can_sample, decide_eq_false_iff_not]
    omega
  unfold DQNAgent.train
  rw [hcs]
  rfl

/-- Claim C6, witness: a train call on the concrete agent `agentE`, whose
buffer is empty while its batch size is 1. -/
theorem c6_train_below_threshold_skips_witness :
    agentE.train (fun x => x) [] = some (0, agentE) :=
  c6_train_below_threshold_skips (fun x => x) agentE [] (by decide)

/-! ## Claim C8 -/

/-- Claim C8: with `epsilon_end < epsilon_start` and a positive decay
horizon, each `select_action` call advances the total-step counter by one
and stores `epsilon_start + (epsilon_end - epsilon_start) * min(1, N / epsilon_decay_steps)`
as the epsilon returned by `get_epsilon()`; that value is non-increasing in
the total-step count and equals `epsilon_end` for every count at or beyond
`epsilon_decay_steps`. -/
theorem c8_epsilon_decay (cfg : DQNConfig) (hlt : cfg.epsilon_end < cfg.epsilon_start)
    (hd : 0 < cfg.epsilon_decay_steps) :
    (∀ (agent : DQNAgent) (state : Observation) (u1 u2 : ℚ) (out : Action × DQNAgent),
      agent.config = cfg → agent.select_action state u1 u2 = some out →
      out.2.total_steps = agent.total_steps + 1 ∧
      out.2.get_epsilon = epsilon_at cfg (agent.total_steps + 1)) ∧
    (∀ m n : ℕ, m ≤ n → epsilon_at cfg n ≤ epsilon_at cfg m) ∧
    (∀ n : ℕ, cfg.epsilon_decay_steps ≤ (n : ℤ) → epsilon_at cfg n = cfg.epsilon_end) := by
  have hdq : (0 : ℚ) < (cfg.epsilon_decay_steps : ℚ) := by
    exact_mod_cast hd
  refine ⟨?_, ?_, ?_⟩
  · intro agent state u1 u2 out hcfg hsel
    unfold DQNAgent.select_action at hsel
    by_cases hb : u1 < epsilon_at agent.config (agent.total_steps + 1)
    · rw [if_pos hb] at hsel
      obtain rfl := Option.some.inj hsel
      subst hcfg
      exact ⟨rfl, rfl⟩
    · rw [if_neg hb] at hsel
      cases hq : Network.forward agent.main_network (observation_to_input state) with
      | none => rw [hq] at hsel; exact Option.noConfusion hsel
      | some q =>
          rw [hq, Option.map_some'] at hsel
          obtain rfl := Option.some.inj hsel
          subst hcfg
          exact ⟨rfl, rfl⟩
  · intro m n hmn
    unfold epsilon_at
    have hmin : min 1 ((m : ℚ) / (cfg.epsilon_decay_steps : ℚ))
        ≤ min 1 ((n : ℚ) / (cfg.epsilon_decay_steps : ℚ)) := by
      apply min_le_min le_rfl
      apply (div_le_div_iff_of_pos_right hdq).mpr
      exact_mod_cast hmn
    have := mul_le_mul_of_nonpos_left hmin (by linarith :
      cfg.epsilon_end - cfg.epsilon_start ≤ 0)
    linarith
  · intro n hn
    unfold epsilon_at
    have hone : (1 : ℚ) ≤ (n : ℚ) / (cfg.epsilon_decay_steps : ℚ) := by
      rw [le_div_iff₀ hdq, one_mul]
      have : ((cfg.epsilon_decay_steps : ℤ) : ℚ) ≤ ((n : ℤ) : ℚ) := by
        exact_mod_cast hn
      simpa using this
    rw [min_eq_left hone]
    ring

/-- Claim C8, witness: the epsilon-decay theorem at the concrete
configuration `cfgW` (start 1, end 0, horizon 2). -/
theorem c8_epsilon_decay_witness :
    (∀ (agent : DQNAgent) (state : Observation) (u1 u2 : ℚ) (out : Action × DQNAgent),
      agent.config = cfgW → agent.select_action state u1 u2 = some out →
      out.2.total_steps = agent.total_steps + 1 ∧
      out.2.get_epsilon = epsilon_at cfgW (agent.total_steps + 1)) ∧
    (∀ m n : ℕ, m ≤ n → epsilon_at cfgW n ≤ epsilon_at cfgW m) ∧
    (∀ n : ℕ, cfgW.epsilon_decay_steps ≤ (n : ℤ) → epsilon_at cfgW n = cfgW.epsilon_end) :=
  c8_epsilon_decay cfgW (by norm_num [cfgW]) (by decide)

/-! ## Shape invariance of the in-place loops -/

theorem map_overwrite_from {α β : Type} (h : α → β) (f : ℕ → α → α)
    (hf : ∀ i x, h (f i x) = h x) (n : ℕ) :
    ∀ (start : ℕ) (xs : List α), (overwrite_from f n start xs).map h = xs.map h := by
  intro start xs
  induction xs generalizing start with
  | nil => rfl
  | cons x xs ih =>
      simp only [overwrite_from, List.map_cons, ih]
      by_cases hi : start < n <;> simp [hi, hf]

theorem map_overwrite_upto {α β : Type} (h : α → β) (f : ℕ → α → α)
    (hf : ∀ i x, h (f i x) = h x) (n : ℕ) (xs : List α) :
    (overwrite_upto f n xs).map h = xs.map h :=
  map_overwrite_from h f hf n 0 xs

theorem length_overwrite_upto_vec (f : ℕ → ℚ → ℚ) (n : ℕ) (xs : Vec) :
    (overwrite_upto f n xs).length = xs.length :=
  overwrite_upto_length f n xs

theorem b2_shape_overwrite (g : ℕ → ℕ → ℚ → ℚ) (rowN : ℕ → ℕ) (n : ℕ) (xs : List Vec) :
    b2_shape (overwrite_upto (fun l v => overwrite_upto (g l) (rowN l) v) n xs)
      = b2_shape xs :=
  map_overwrite_upto List.length _ (fun l v => overwrite_upto_length _ _ v) n xs

theorem w3_shape_overwrite (g : ℕ → ℕ → ℕ → ℚ → ℚ) (rowN : ℕ → ℕ) (colN : ℕ → ℕ → ℕ)
    (n : ℕ) (xs : List Mat) :
    w3_shape (overwrite_upto
      (fun l M => overwrite_upto (fun i r => overwrite_upto (g l i) (colN l i) r) (rowN l) M)
      n xs) = w3_shape xs := by
  unfold w3_shape
  exact map_overwrite_upto (fun M => M.map List.length) _
    (fun l M => map_overwrite_upto List.length _ (fun i r => overwrite_upto_length _ _ r) _ M)
    n xs

theorem b2_shape_acc_b2 (acc g : List Vec) : b2_shape (acc_b2 acc g) = b2_shape acc := by
  unfold acc_b2 acc_vec
  exact map_overwrite_upto List.length _ (fun l v => overwrite_upto_length _ _ v) _ acc

theorem w3_shape_acc_w3 (acc g : List Mat) : w3_shape (acc_w3 acc g) = w3_shape acc := by
  unfold acc_w3 acc_mat acc_vec w3_shape
  exact map_overwrite_upto (fun M => M.map List.length) _
    (fun l M => map_overwrite_upto List.length _ (fun i r => overwrite_upto_length _ _ r) _ M)
    _ acc

/-! ## Pointwise reading of the gradient accumulation -/

theorem getD_replicate {α : Type} (n i : ℕ) (a d : α) (h : i < n) :
    (List.replicate n a).getD i d = a := by
  rw [List.getD_eq_getElem _ _ (by simpa using h), List.getElem_replicate]

theorem map_range_getD {α β : Type} (f : α → β) (xs : List α) (d : α) :
    (List.range xs.length).map (fun i => f (xs.getD i d)) = xs.map f := by
  apply List.ext_getElem
  · simp
  · intro i h1 h2
    simp only [List.getElem_map, List.getElem_range]
    rw [List.getD_eq_getElem _ _ (by simpa using h2)]

theorem acc_vec_getD (acc g : Vec) (i : ℕ) (hacc : i < acc.length) (hg : i < g.length) :
    (acc_vec acc g).getD i 0 = acc.getD i 0 + g.getD i 0 := by
  unfold acc_vec
  rw [overwrite_upto_getD _ _ _ _ _ hacc, if_pos hg]

theorem acc_w3_getD (acc g : List Mat) (l i j : ℕ)
    (hsh : w3_shape g = w3_shape acc)
    (hl : l < acc.length) (hi : i < (acc.getD l []).length)
    (hj : j < ((acc.getD l []).getD i []).length) :
    (((acc_w3 acc g).getD l []).getD i []).getD j 0
      = ((acc.getD l []).getD i []).getD j 0 + ((g.getD l []).getD i []).getD j 0 := by
  have hgl : l < g.length := by rw [w3_shape_length_eq hsh]; exact hl
  have hgi : i < (g.getD l []).length := by rw [w3_shape_row_eq hsh l hl]; exact hi
  have hgj : j < ((g.getD l []).getD i []).length := by
    rw [w3_shape_col_eq hsh l i hl hi]; exact hj
  unfold acc_w3 acc_mat acc_vec
  rw [overwrite_upto_getD _ _ _ _ _ hl, if_pos hgl,
    overwrite_upto_getD _ _ _ _ _ hi, if_pos hgi,
    overwrite_upto_getD _ _ _ _ _ hj, if_pos hgj]

theorem acc_b2_getD (acc g : List Vec) (l i : ℕ)
    (hsh : b2_shape g = b2_shape acc)
    (hl : l < acc.length) (hi : i < (acc.getD l []).length) :
    ((acc_b2 acc g).getD l []).getD i 0
      = (acc.getD l []).getD i 0 + (g.getD l []).getD i 0 := by
  have hgl : l < g.length := by rw [b2_shape_length_eq hsh]; exact hl
  have hgi : i < (g.getD l []).length := by rw [b2_shape_row_eq hsh l hl]; exact hi
  unfold acc_b2 acc_vec
  rw [overwrite_upto_getD _ _ _ _ _ hl, if_pos hgl,
    overwrite_upto_getD _ _ _ _ _ hi, if_pos hgi]

theorem foldl_acc_w3_getD (gs : List (List Mat)) :
    ∀ (acc : List Mat), (∀ g ∈ gs, w3_shape g = w3_shape acc) →
      ∀ l i j, l < acc.length → i < (acc.getD l []).length →
        j < ((acc.getD l []).getD i []).length →
        (((gs.foldl acc_w3 acc).getD l []).getD i []).getD j 0
          = ((acc.getD l []).getD i []).getD j 0
            + (gs.map (fun g => ((g.getD l []).getD i []).getD j 0)).sum := by
  induction gs with
  | nil => intro acc _ l i j _ _ _; simp
  | cons g gs ih =>
      intro acc hsh l i j hl hi hj
      have hshg : w3_shape g = w3_shape acc := hsh g (by simp)
      have hacc' : w3_shape (acc_w3 acc g) = w3_shape acc := w3_shape_acc_w3 acc g
      have hl' : l < (acc_w3 acc g).length := by
        rw [w3_shape_length_eq hacc']; exact hl
      have hi' : i < ((acc_w3 acc g).getD l []).length := by
        rw [w3_shape_row_eq hacc' l hl]; exact hi
      have hj' : j < (((acc_w3 acc g).getD l []).getD i []).length := by
        rw [w3_shape_col_eq hacc' l i hl hi]; exact hj
      rw [List.foldl_cons,
        ih (acc_w3 acc g) (fun g' hg' => by rw [hsh g' (by simp [hg']), ← hacc'])
          l i j hl' hi' hj',
        acc_w3_getD acc g l i j hshg hl hi hj]
      simp only [List.map_cons, List.sum_cons]
      ring

theorem foldl_acc_b2_getD (gs : List (List Vec)) :
    ∀ (acc : List Vec), (∀ g ∈ gs, b2_shape g = b2_shape acc) →
      ∀ l i, l < acc.length → i < (acc.getD l []).length →
        ((gs.foldl acc_b2 acc).getD l []).getD i 0
          = (acc.getD l []).getD i 0
            + (gs.map (fun g => (g.getD l []).getD i 0)).sum := by
  induction gs with
  | nil => intro acc _ l i _ _; simp
  | cons g gs ih =>
      intro acc hsh l i hl hi
      have hshg : b2_shape g = b2_shape acc := hsh g (by simp)
      have hacc' : b2_shape (acc_b2 acc g) = b2_shape acc := b2_shape_acc_b2 acc g
      have hl' : l < (acc_b2 acc g).length := by
        rw [b2_shape_length_eq hacc']; exact hl
      have hi' : i < ((acc_b2 acc g).getD l []).length := by
        rw [b2_shape_row_eq hacc' l hl]; exact hi
      rw [List.foldl_cons,
        ih (acc_b2 acc g) (fun g' hg' => by rw [hsh g' (by simp [hg']), ← hacc'])
          l i hl' hi',
        acc_b2_getD acc g l i hshg hl hi]
      simp only [List.map_cons, List.sum_cons]
      ring

/-! ## Shapes of the gradients produced by `backward` -/

theorem layer_grads_wg_shape (W : Mat) (b : Vec) (delta prevAct : Vec) :
    (layer_grads W b delta prevAct).1.map List.length = W.map List.length := by
  unfold layer_grads
  simp only [List.map_map]
  have : ∀ i, (List.length ∘ fun i =>
      (List.range (W.getD i []).length).map (fun j => delta.getD i 0 * prevAct.getD j 0)) i
        = (W.getD i []).length := by
    intro i
    simp
  rw [List.map_congr_left (fun i _ => this i)]
  exact map_range_getD List.length W []

theorem layer_grads_bg_length (W : Mat) (b : Vec) (delta prevAct : Vec) :
    (layer_grads W b delta prevAct).2.length = b.length := by
  simp [layer_grads]

theorem backward_layers_grad_shapes (weights : List Mat) (biases : List Vec)
    (acts pres : List Vec) (N : ℕ) :
    ∀ (l : ℕ) (delta : Vec) (r : List Mat × List Vec),
      backward_layers weights biases acts pres N l delta = some r →
      r.1.length = l + 1 ∧ r.2.length = l + 1 ∧
      ∀ m, m ≤ l →
        (r.1.getD m []).map List.length = (weights.getD m []).map List.length ∧
        (r.2.getD m []).length = (biases.getD m []).length := by
  intro l
  induction l with
  | zero =>
      intro delta r h
      obtain rfl := (Option.some.inj h).symm
      refine ⟨rfl, rfl, ?_⟩
      intro m hm
      interval_cases m
      exact ⟨layer_grads_wg_shape _ _ _ _, layer_grads_bg_length _ _ _ _⟩
  | succ l ih =>
      intro delta r h
      rw [backward_layers] at h
      have hfac : ∃ factors,
          backward_layers weights biases acts pres N l
            (back_delta (weights.getD (l + 1) []) factors
              (acts.getD (l + 1) []).length) >>= (fun rest =>
            some (rest.1 ++ [(layer_grads (weights.getD (l + 1) [])
                (biases.getD (l + 1) []) delta (acts.getD (l + 1) [])).1],
              rest.2 ++ [(layer_grads (weights.getD (l + 1) [])
                (biases.getD (l + 1) []) delta (acts.getD (l + 1) [])).2])) = some r := by
        by_cases hc : l + 1 < N - 1
        · rw [if_pos hc] at h
          cases hmd : masked_delta (weights.getD (l + 1) []) delta (pres.getD l []) with
          | none =>
              rw [hmd] at h
              simp only [Option.bind_eq_bind, Option.none_bind] at h
              exact Option.noConfusion h
          | some factors =>
              rw [hmd] at h
              simp only [Option.bind_eq_bind, Option.some_bind] at h
              exact ⟨factors, h⟩
        · rw [if_neg hc] at h
          simp only [Option.bind_eq_bind, Option.some_bind] at h
          exact ⟨_, h⟩
      obtain ⟨factors, h⟩ := hfac
      cases hrest : backward_layers weights biases acts pres N l
          (back_delta (weights.getD (l + 1) []) factors
            (acts.getD (l + 1) []).length) with
      | none =>
          rw [hrest] at h
          simp only [Option.bind_eq_bind, Option.none_bind] at h
          exact Option.noConfusion h
      | some r0 =>
          rw [hrest] at h
          simp only [Option.bind_eq_bind, Option.some_bind] at h
          obtain rfl := (Option.some.inj h).symm
          obtain ⟨hlen1, hlen2, hsh⟩ := ih _ r0 hrest
          refine ⟨by simp [hlen1], by simp [hlen2], ?_⟩
          intro m hm
          rcases Nat.lt_or_ge m (l + 1) with hml | hml
          · have h1 : m < r0.1.length := by omega
            have h2 : m < r0.2.length := by omega
            rw [List.getD_append _ _ _ _ h1, List.getD_append _ _ _ _ h2]
            exact hsh m (by omega)
          · have hmeq : m = l + 1 := by omega
            subst hmeq
            have e1 : (r0.1 ++ [(layer_grads (weights.getD (l + 1) [])
                (biases.getD (l + 1) []) delta (acts.getD (l + 1) [])).1]).getD (l + 1) []
                = (layer_grads (weights.getD (l + 1) []) (biases.getD (l + 1) [])
                  delta (acts.getD (l + 1) [])).1 := by
              rw [List.getD_eq_getElem _ _ (by simp [hlen1])]
              exact List.getElem_concat_length _ _ _ (by omega) _
            have e2 : (r0.2 ++ [(layer_grads (weights.getD (l + 1) [])
                (biases.getD (l + 1) []) delta (acts.getD (l + 1) [])).2]).getD (l + 1) []
                = (layer_grads (weights.getD (l + 1) []) (biases.getD (l + 1) [])
                  delta (acts.getD (l + 1) [])).2 := by
              rw [List.getD_eq_getElem _ _ (by simp [hlen2])]
              exact List.getElem_concat_length _ _ _ (by omega) _
            rw [e1, e2]
            exact ⟨layer_grads_wg_shape _ _ _ _, layer_grads_bg_length _ _ _ _⟩

theorem backward_grad_shapes (net : Network) (input target predicted : Vec)
    (g : List Mat × List Vec) (h : net.backward input target predicted = some g) :
    g.1.length = net.weights.length ∧ g.2.length = net.weights.length ∧
    ∀ m < net.weights.length,
      (g.1.getD m []).map List.length = (net.weights.getD m []).map List.length ∧
      (g.2.getD m []).length = (net.biases.getD m []).length := by
  unfold Network.backward at h
  cases hn : net.weights.length with
  | zero =>
      rw [hn] at h
      obtain rfl := (Option.some.inj h).symm
      exact ⟨rfl, rfl, fun m hm => absurd hm (by omega)⟩
  | succ n =>
      rw [hn] at h
      obtain ⟨h1, h2, h3⟩ := backward_layers_grad_shapes net.weights net.biases
        (input :: (forward_trace net.weights net.biases input).1)
        (forward_trace net.weights net.biases input).2 (n + 1) n _ g h
      exact ⟨by omega, by omega, fun m hm => h3 m (by omega)⟩

theorem w3_shape_eq_of_entries {a b : List Mat} (hlen : a.length = b.length)
    (h : ∀ m < b.length, (a.getD m []).map List.length = (b.getD m []).map List.length) :
    w3_shape a = w3_shape b := by
  unfold w3_shape
  apply List.ext_getElem (by simpa using hlen)
  intro i h1 h2
  simp only [List.getElem_map]
  have h1a : i < a.length := by simpa using h1
  have h2b : i < b.length := by simpa using h2
  have := h i h2b
  rw [List.getD_eq_getElem _ _ h1a, List.getD_eq_getElem _ _ h2b] at this
  exact this

theorem b2_shape_eq_of_entries {a b : List Vec} (hlen : a.length = b.length)
    (h : ∀ m < b.length, (a.getD m []).length = (b.getD m []).length) :
    b2_shape a = b2_shape b := by
  unfold b2_shape
  apply List.ext_getElem (by simpa using hlen)
  intro i h1 h2
  simp only [List.getElem_map]
  have h1a : i < a.length := by simpa using h1
  have h2b : i < b.length := by simpa using h2
  have := h i h2b
  rw [List.getD_eq_getElem _ _ h1a, List.getD_eq_getElem _ _ h2b] at this
  exact this

/-! ## Remaining support for claim C2 -/

theorem zip_self_map {α β : Type} (l : List α) (f : α → β) :
    l.zip (l.map f) = l.map (fun a => (a, f a)) := by
  induction l with
  | nil => rfl
  | cons x xs ih => simp [ih]

theorem zero_weight_acc_shape_eq (net : Network) (hwf : net.wf) :
    w3_shape (zero_weight_acc net.layer_sizes) = w3_shape net.weights := by
  obtain ⟨h2, hw, hb, hl⟩ := hwf
  apply w3_shape_eq_of_entries
  · simp [zero_weight_acc, hw]
  · intro m hm
    have hml : m < net.layer_sizes.length - 1 := by omega
    unfold zero_weight_acc
    rw [getD_range_map _ _ _ _ hml, List.map_replicate]
    obtain ⟨hrows, hcols, _⟩ := hl m hm
    symm
    rw [List.eq_replicate_iff]
    refine ⟨by simpa using hrows, ?_⟩
    intro b hbm
    obtain ⟨r, hr, rfl⟩ := List.mem_map.mp hbm
    simp [hcols r hr]

theorem zero_bias_acc_shape_eq (net : Network) (hwf : net.wf) :
    b2_shape (zero_bias_acc net.layer_sizes) = b2_shape net.biases := by
  obtain ⟨h2, hw, hb, hl⟩ := hwf
  apply b2_shape_eq_of_entries
  · simp [zero_bias_acc, hb]
  · intro m hm
    have hml : m < net.layer_sizes.length - 1 := by omega
    unfold zero_bias_acc
    rw [getD_range_map _ _ _ _ hml]
    obtain ⟨_, _, hblen⟩ := hl m (by omega)
    rw [List.length_replicate, hblen]

theorem zero_weight_acc_getD (sizes : List ℕ) (l i j : ℕ) (hl : l < sizes.length - 1)
    (hi : i < sizes.getD (l + 1) 0) (hj : j < sizes.getD l 0) :
    (((zero_weight_acc sizes).getD l []).getD i []).getD j 0 = 0 := by
  unfold zero_weight_acc
  rw [getD_range_map _ _ _ _ hl, getD_replicate _ _ _ _ hi, getD_replicate _ _ _ _ hj]

theorem zero_bias_acc_getD (sizes : List ℕ) (l i : ℕ) (hl : l < sizes.length - 1)
    (hi : i < sizes.getD (l + 1) 0) :
    ((zero_bias_acc sizes).getD l []).getD i 0 = 0 := by
  unfold zero_bias_acc
  rw [getD_range_map _ _ _ _ hl, getD_replicate _ _ _ _ hi]

theorem sample_target_vec_getD_action (agent : DQNAgent) (e : Experience) :
    (sample_target_vec agent e).getD (action_index e.action) 0 = td_target agent e := by
  cases hact : e.action <;>
    simp [sample_target_vec, action_index, hact]

theorem sample_grads_shapes (agent : DQNAgent) (e : Experience)
    (hwf : agent.main_network.wf)
    (hsafe : ∀ l < agent.main_network.weights.length, 1 ≤ l →
      l + 1 < agent.main_network.weights.length →
      (agent.main_network.weights.getD l []).length
        ≤ (agent.main_network.weights.getD (l - 1) []).length) :
    w3_shape (sample_grads agent e).1
      = w3_shape (zero_weight_acc agent.main_network.layer_sizes) ∧
    b2_shape (sample_grads agent e).2
      = b2_shape (zero_bias_acc agent.main_network.layer_sizes) := by
  have hback := backward_eq_amended_of_safe agent.main_network
    (observation_to_input e.state) (sample_target_vec agent e) (q_pred agent e) hsafe
  have hg : sample_grads agent e
      = agent.main_network.backward_amended (observation_to_input e.state)
          (sample_target_vec agent e) (q_pred agent e) := by
    unfold sample_grads
    rw [hback]
    rfl
  obtain ⟨hl1, hl2, hsh⟩ := backward_grad_shapes agent.main_network
    (observation_to_input e.state) (sample_target_vec agent e) (q_pred agent e) _ hback
  have hwlen : agent.main_network.biases.length = agent.main_network.weights.length := by
    obtain ⟨_, hw, hb, _⟩ := hwf
    omega
  constructor
  · rw [hg, zero_weight_acc_shape_eq _ hwf]
    exact w3_shape_eq_of_entries hl1 (fun m hm => (hsh m hm).1)
  · rw [hg, zero_bias_acc_shape_eq _ hwf]
    exact b2_shape_eq_of_entries (by omega) (fun m hm => (hsh m (by omega)).2)

theorem adam_update_out_shapes (sq : ℚ → ℚ) (o : AdamOptimizer)
    (weights : List Mat) (biases : List Vec)
    (wg : List Mat) (bg : List Vec) :
    w3_shape (o.update sq weights biases wg bg).2.1 = w3_shape weights ∧
    b2_shape (o.update sq weights biases wg bg).2.2 = b2_shape biases := by
  simp only [AdamOptimizer.update]
  exact ⟨w3_shape_overwrite _ _ _ _ _, b2_shape_overwrite _ _ _ _⟩

/-! ## Claim C2 -/

/-- Claim C2: a `train()` call on an agent whose buffer holds at least
`batch_size` experiences samples one batch, runs `backward` once per sampled
experience on the MAIN network, SUMS the per-sample weight and bias
gradients elementwise (last two conjuncts), applies exactly one
`AdamOptimizer` update using those summed gradients (whose step counter
therefore rises by exactly one), increments the training-step counter by
one, and returns the arithmetic mean over the batch of the squared TD error
of the taken-action output slot only. -/
theorem c2_train_batch (sq : ℚ → ℚ) (agent : DQNAgent) (shuffled : List ℕ)
    (hwf : agent.main_network.wf)
    (hin_main : agent.main_network.layer_sizes.getD 0 0 = 4)
    (hin_tgt : agent.target_network.layer_sizes.getD 0 0 = 4)
    (hsafe : ∀ l < agent.main_network.weights.length, 1 ≤ l →
      l + 1 < agent.main_network.weights.length →
      (agent.main_network.weights.getD l []).length
        ≤ (agent.main_network.weights.getD (l - 1) []).length)
    (hbs : 0 < agent.config.batch_size)
    (hbatch : agent.config.batch_size ≤ agent.replay_buffer.experiences.length)
    (hperm : shuffled.Perm (List.range agent.replay_buffer.experiences.length)) :
    agent.train sq shuffled = some
      (((sampled_batch agent shuffled).map (sq_td agent)).sum / (agent.config.batch_size : ℚ),
       { agent with
           main_network := { agent.main_network with
             weights := (agent.optimizer.update sq agent.main_network.weights
               agent.main_network.biases
               (summed_weight_grads agent (sampled_batch agent shuffled))
               (summed_bias_grads agent (sampled_batch agent shuffled))).2.1,
             biases := (agent.optimizer.update sq agent.main_network.weights
               agent.main_network.biases
               (summed_weight_grads agent (sampled_batch agent shuffled))
               (summed_bias_grads agent (sampled_batch agent shuffled))).2.2 },
           optimizer := (agent.optimizer.update sq agent.main_network.weights
               agent.main_network.biases
               (summed_weight_grads agent (sampled_batch agent shuffled))
               (summed_bias_grads agent (sampled_batch agent shuffled))).1,
           training_steps := agent.training_steps + 1 }) ∧
    (agent.optimizer.update sq agent.main_network.weights agent.main_network.biases
      (summed_weight_grads agent (sampled_batch agent shuffled))
      (summed_bias_grads agent (sampled_batch agent shuffled))).1.step
      = agent.optimizer.step + 1 ∧
    (sampled_batch agent shuffled).length = agent.config.batch_size ∧
    (∀ l i j, l < agent.main_network.weights.length →
      i < (agent.main_network.weights.getD l []).length →
      j < ((agent.main_network.weights.getD l []).getD i []).length →
      (((summed_weight_grads agent (sampled_batch agent shuffled)).getD l []).getD i []).getD j 0
        = ((sampled_batch agent shuffled).map
            (fun e => (((sample_grads agent e).1.getD l []).getD i []).getD j 0)).sum) ∧
    (∀ l i, l < agent.main_network.weights.length →
      i < (agent.main_network.weights.getD l []).length →
      ((summed_bias_grads agent (sampled_batch agent shuffled)).getD l []).getD i 0
        = ((sampled_batch agent shuffled).map
            (fun e => ((sample_grads agent e).2.getD l []).getD i 0)).sum) := by
  obtain ⟨hly2, hwlen, hblen, hlshape⟩ := hwf
  have hwf' : agent.main_network.wf := ⟨hly2, hwlen, hblen, hlshape⟩
  have hsize : shuffled.length = agent.replay_buffer.experiences.length := by
    simpa using hperm.length_eq
  have hbatch_len : (sampled_batch agent shuffled).length = agent.config.batch_size := by
    unfold sampled_batch
    rw [List.length_map, List.length_take]
    omega
  have hcs : agent.replay_buffer.can_sample agent.config.batch_size = true := by
    simp only [ReplayBuffer.can_sample, decide_eq_true_eq]
    omega
  have hsample : agent.replay_buffer.sample agent.config.batch_size shuffled
      = .ok (sampled_batch agent shuffled) := by
    unfold ReplayBuffer.sample sampled_batch
    rw [if_neg (by omega)]
  have hfwd_main : ∀ obs : Observation,
      agent.main_network.forward (observation_to_input obs)
        = some (forward_layers agent.main_network.weights agent.main_network.biases
            (observation_to_input obs)) := by
    intro obs
    unfold Network.forward
    rw [if_pos (by rw [show (observation_to_input obs).length = 4 from rfl]; exact hin_main.symm)]
  have hfwd_tgt : ∀ obs : Observation,
      agent.target_network.forward (observation_to_input obs)
        = some (forward_layers agent.target_network.weights agent.target_network.biases
            (observation_to_input obs)) := by
    intro obs
    unfold Network.forward
    rw [if_pos (by rw [show (observation_to_input obs).length = 4 from rfl]; exact hin_tgt.symm)]
  have htargets : agent.compute_targets (sampled_batch agent shuffled)
      = some ((sampled_batch agent shuffled).map
          (fun e => ([0, 0] : Vec).set (action_index e.action) (td_target agent e))) := by
    apply option_map_list_eq_map
    intro e he
    by_cases hdone : e.done
    · simp [hdone, td_target]
    · simp only [hdone, Bool.false_eq_true, if_false, td_target, hfwd_tgt e.next_state,
        Option.map_some', Option.getD_some]
  have hq : ∀ e : Experience, q_pred agent e
      = forward_layers agent.main_network.weights agent.main_network.biases
          (observation_to_input e.state) := by
    intro e
    unfold q_pred
    rw [hfwd_main]
    rfl
  have hsg : ∀ e : Experience, sample_grads agent e
      = agent.main_network.backward_amended (observation_to_input e.state)
          (sample_target_vec agent e) (q_pred agent e) := by
    intro e
    unfold sample_grads
    rw [backward_eq_amended_of_safe _ _ _ _ hsafe]
    rfl
  have hstep_all : ∀ p ∈ (sampled_batch agent shuffled).map
      (fun a => (a, ([0, 0] : Vec).set (action_index a.action) (td_target agent a))),
      ((agent.main_network.forward (observation_to_input p.1.state)).bind fun predicted =>
        (agent.main_network.backward (observation_to_input p.1.state)
            (p.2.set (1 - action_index p.1.action)
              (predicted.getD (1 - action_index p.1.action) 0))
            predicted).bind fun g =>
        some ((predicted.getD (action_index p.1.action) 0 -
            (p.2.set (1 - action_index p.1.action)
              (predicted.getD (1 - action_index p.1.action) 0)).getD
              (action_index p.1.action) 0) *
          (predicted.getD (action_index p.1.action) 0 -
            (p.2.set (1 - action_index p.1.action)
              (predicted.getD (1 - action_index p.1.action) 0)).getD
              (action_index p.1.action) 0), g))
      = some (sq_td agent p.1, sample_grads agent p.1) := by
    intro p hp
    obtain ⟨e, he, rfl⟩ := List.mem_map.mp hp
    simp only
    rw [hfwd_main e.state, Option.some_bind, ← hq e]
    rw [show (([0, 0] : Vec).set (action_index e.action) (td_target agent e)).set
        (1 - action_index e.action) ((q_pred agent e).getD (1 - action_index e.action) 0)
      = sample_target_vec agent e from rfl]
    rw [backward_eq_amended_of_safe _ _ _ _ hsafe, Option.some_bind]
    rw [hsg e, sample_target_vec_getD_action]
    rfl
  refine ⟨?_, ?_, hbatch_len, ?_, ?_⟩
  · unfold DQNAgent.train
    rw [if_pos hcs, hsample]
    simp only [Except.toOption, Option.bind_eq_bind, Option.some_bind]
    rw [htargets]
    simp only [Option.some_bind]
    rw [zip_self_map]
    rw [option_map_list_eq_map _ _ _ hstep_all]
    simp only [Option.some_bind, List.map_map]
    rw [List.foldl_map, List.foldl_map]
    have hsummed_w : (sampled_batch agent shuffled).foldl
        (fun acc e => acc_w3 acc (sample_grads agent e).1)
        (zero_weight_acc agent.main_network.layer_sizes)
        = summed_weight_grads agent (sampled_batch agent shuffled) := rfl
    have hsummed_b : (sampled_batch agent shuffled).foldl
        (fun acc e => acc_b2 acc (sample_grads agent e).2)
        (zero_bias_acc agent.main_network.layer_sizes)
        = summed_bias_grads agent (sampled_batch agent shuffled) := rfl
    simp only [Network.get_weights, Network.get_biases, Network.set_weights,
      Network.set_biases]
    rw [if_pos (adam_update_out_shapes sq agent.optimizer agent.main_network.weights
      agent.main_network.biases _ _).1]
    simp only [Option.some_bind]
    rw [if_pos (adam_update_out_shapes sq agent.optimizer agent.main_network.weights
      agent.main_network.biases _ _).2]
    simp only [Option.some_bind, Option.some.injEq]
    rw [hbatch_len]
    rfl
  · simp only [AdamOptimizer.update]
    by_cases h0 : agent.optimizer.step = 0 <;> simp [h0, AdamOptimizer.init_state]
  · intro l i j hl hi hj
    have hzl : l < (zero_weight_acc agent.main_network.layer_sizes).length := by
      simp only [zero_weight_acc, List.length_map, List.length_range]
      omega
    obtain ⟨hrows, hcols, hbrow⟩ := hlshape l hl
    have hsl : l < agent.main_network.layer_sizes.length - 1 := by omega
    have hzrow : ((zero_weight_acc agent.main_network.layer_sizes).getD l []).length
        = agent.main_network.layer_sizes.getD (l + 1) 0 := by
      unfold zero_weight_acc
      rw [getD_range_map _ _ _ _ hsl, List.length_replicate]
    have hzi : i < ((zero_weight_acc agent.main_network.layer_sizes).getD l []).length := by
      omega
    have hrmem : (agent.main_network.weights.getD l []).getD i [] ∈
        agent.main_network.weights.getD l [] := by
      rw [List.getD_eq_getElem _ _ hi]
      exact List.getElem_mem _
    have hradical := hcols _ hrmem
    have hzcol : (((zero_weight_acc agent.main_network.layer_sizes).getD l []).getD i []).length
        = agent.main_network.layer_sizes.getD l 0 := by
      unfold zero_weight_acc
      rw [getD_range_map _ _ _ _ hsl, getD_replicate _ _ _ _ (by omega),
        List.length_replicate]
    have hzj : j < (((zero_weight_acc agent.main_network.layer_sizes).getD l []).getD i []).length := by
      omega
    unfold summed_weight_grads
    rw [show (sampled_batch agent shuffled).foldl
        (fun acc e => acc_w3 acc (sample_grads agent e).1)
        (zero_weight_acc agent.main_network.layer_sizes)
      = ((sampled_batch agent shuffled).map (fun e => (sample_grads agent e).1)).foldl
          acc_w3 (zero_weight_acc agent.main_network.layer_sizes) from
      (List.foldl_map _ _ _ _).symm]
    rw [foldl_acc_w3_getD _ _
      (fun g hg => by
        obtain ⟨e, he, rfl⟩ := List.mem_map.mp hg
        exact (sample_grads_shapes agent e hwf' hsafe).1)
      l i j hzl hzi hzj]
    rw [zero_weight_acc_getD _ _ _ _ hsl (by omega) (by omega), List.map_map, zero_add]
    rfl
  · intro l i hl hi
    have hzl : l < (zero_bias_acc agent.main_network.layer_sizes).length := by
      simp only [zero_bias_acc, List.length_map, List.length_range]
      omega
    obtain ⟨hrows, hcols, hbrow⟩ := hlshape l hl
    have hsl : l < agent.main_network.layer_sizes.length - 1 := by omega
    have hzrow : ((zero_bias_acc agent.main_network.layer_sizes).getD l []).length
        = agent.main_network.layer_sizes.getD (l + 1) 0 := by
      unfold zero_bias_acc
      rw [getD_range_map _ _ _ _ hsl, List.length_replicate]
    have hzi : i < ((zero_bias_acc agent.main_network.layer_sizes).getD l []).length := by
      omega
    unfold summed_bias_grads
    rw [show (sampled_batch agent shuffled).foldl
        (fun acc e => acc_b2 acc (sample_grads agent e).2)
        (zero_bias_acc agent.main_network.layer_sizes)
      = ((sampled_batch agent shuffled).map (fun e => (sample_grads agent e).2)).foldl
          acc_b2 (zero_bias_acc agent.main_network.layer_sizes) from
      (List.foldl_map _ _ _ _).symm]
    rw [foldl_acc_b2_getD _ _
      (fun g hg => by
        obtain ⟨e, he, rfl⟩ := List.mem_map.mp hg
        exact (sample_grads_shapes agent e hwf' hsafe).2)
      l i hzl hzi]
    rw [zero_bias_acc_getD _ _ _ hsl (by omega), List.map_map, zero_add]
    rfl

/-- Claim C2, witness: one train call on the concrete agent `agentW` (batch
size 1, one stored terminal experience, shuffle permutation `[0]`). -/
theorem c2_train_batch_witness :
    agentW.train (fun x => x) [0] = some
      (((sampled_batch agentW [0]).map (sq_td agentW)).sum / (agentW.config.batch_size : ℚ),
       { agentW with
           main_network := { agentW.main_network with
             weights := (agentW.optimizer.update (fun x => x) agentW.main_network.weights
               agentW.main_network.biases
               (summed_weight_grads agentW (sampled_batch agentW [0]))
               (summed_bias_grads agentW (sampled_batch agentW [0]))).2.1,
             biases := (agentW.optimizer.update (fun x => x) agentW.main_network.weights
               agentW.main_network.biases
               (summed_weight_grads agentW (sampled_batch agentW [0]))
               (summed_bias_grads agentW (sampled_batch agentW [0]))).2.2 },
           optimizer := (agentW.optimizer.update (fun x => x) agentW.main_network.weights
               agentW.main_network.biases
               (summed_weight_grads agentW (sampled_batch agentW [0]))
               (summed_bias_grads agentW (sampled_batch agentW [0]))).1,
           training_steps := agentW.training_steps + 1 }) :=
  (c2_train_batch (fun x => x) agentW [0] (by decide) (by decide) (by decide) (by decide)
    (by decide) (by decide) (by decide)).1

end FlappyRL
